import Mathlib

/-!
Shallow embedding of `src/switch/table-hash.c` (openflow): the exact-match
hash-table engine — a direct-mapped single-hash table (`sw_table_hash`) and a
double-hash table (`sw_table_hash2`) composed of two single-hash subtables,
plus the cursor (iterator) protocol over both flavors.

Modelling conventions:
- `unsigned int` arithmetic is `Nat` with explicit wrap-around modulo `2^32`
  (`uadd`, `usub`); bucket indexing `crc & bucket_mask` is `Nat.land` (`&&&`).
- The external CRC-32 primitive (`crc32_calculate` with the table's
  polynomial state) is a function field `crc32 : FlowKey → Nat` of the table.
- `memcmp` of two `sw_flow_key` values is structural equality of `FlowKey`
  (the key is the full fixed-size struct, wildcards field included).
- The external predicates `flow_timeout` and `flow_del_matches` are function
  parameters of the operations that call them.
- `malloc`/`calloc` are modelled as always succeeding; the only construction
  failure modelled is the `assert` in `table_hash_create`.
- Side effects `flow_free` and `dp_send_flow_expired` are made explicit in
  the return values: mutating operations additionally return the list of
  flows freed (and, for `timeout`, the interleaved notify/free event trace).
-/

/-- Fixed-size packet-classification key (`struct sw_flow_key`): a wildcard
bitmask plus the remaining match fields, abstracted to one `Nat`.  Byte-wise
`memcmp` equality of two keys is structural equality here. -/
structure FlowKey where
  wildcards : Nat
  fields : Nat
deriving DecidableEq, Repr

/-- SwFlow entry (`struct sw_flow`): owns its key; `flow_id` distinguishes
distinct heap-allocated entries that happen to carry equal keys. -/
structure SwFlow where
  key : FlowKey
  flow_id : Nat
deriving DecidableEq, Repr

/-- Wrap-around bound of C `unsigned int` (32-bit), the literal `2^32`. -/
def UINT_MOD : Nat := 4294967296

/-- C unsigned-int addition `a + b` with wrap-around. -/
def uadd (a b : Nat) : Nat := (a + b) % UINT_MOD

/-- C unsigned-int subtraction: `(a - b) mod 2^32` for operands already
reduced mod `2^32` (as C `unsigned int` values are), written in branch form
(equal to `(a + UINT_MOD - b % UINT_MOD) % UINT_MOD` for `a < UINT_MOD`, see
`usub_eq_wrap`). -/
def usub (a b : Nat) : Nat :=
  if b % UINT_MOD ≤ a then a - b % UINT_MOD else a + UINT_MOD - b % UINT_MOD

/-- Single-hash table `struct sw_table_hash`: CRC state (as the keyed digest
function it induces), `n_flows` counter, `bucket_mask`, and the bucket array
(each bucket owning at most one flow). -/
structure SwTableHash where
  crc32 : FlowKey → Nat
  n_flows : Nat
  bucket_mask : Nat
  buckets : List (Option SwFlow)

/-- Bucket index computed by `find_bucket`:
`crc32_calculate(&th->crc32, key, sizeof *key) & th->bucket_mask`.
(The C function returns a pointer to the bucket; we return its index.) -/
def find_bucket (th : SwTableHash) (key : FlowKey) : Nat :=
  th.crc32 key &&& th.bucket_mask

/-- Contents of bucket `i` (array read `th->buckets[i]`). -/
def SwTableHash.bucketAt (th : SwTableHash) (i : Nat) : Option SwFlow :=
  th.buckets.getD i none

/-- `table_hash_lookup`: the entry in the key's bucket iff the bucket is
occupied and the stored key is `memcmp`-identical to `key`. -/
def table_hash_lookup (th : SwTableHash) (key : FlowKey) : Option SwFlow :=
  match th.bucketAt (find_bucket th key) with
  | some flow => if flow.key = key then some flow else none
  | none => none

/-- `table_hash_insert`: returns the C `int` retval (1 accepted, 0 rejected),
the updated table, and the list of flows freed (`flow_free(old_flow)` on the
replace path). -/
def table_hash_insert (th : SwTableHash) (flow : SwFlow) : Nat × SwTableHash × List SwFlow :=
  if flow.key.wildcards ≠ 0 then
    (0, th, [])
  else
    match th.bucketAt (find_bucket th flow.key) with
    | none =>
      (1, { th with n_flows := uadd th.n_flows 1,
                    buckets := th.buckets.set (find_bucket th flow.key) (some flow) }, [])
    | some old_flow =>
      if old_flow.key = flow.key then
        (1, { th with
                buckets := th.buckets.set (find_bucket th flow.key) (some flow) },
          [old_flow])
      else
        (0, th, [])

/-- Scan loop of the wildcard branch of `table_hash_delete`
(`for (i = 0; i <= th->bucket_mask; i++) ...`), processed bucket-by-bucket in
index order: clears each occupied bucket whose flow satisfies `p`
(`flow_del_matches(&flow->key, key, strict)`); returns the new bucket array,
the count of deletions, and the freed flows in bucket order. -/
def deleteMatchingBuckets (p : SwFlow → Bool) :
    List (Option SwFlow) → List (Option SwFlow) × Nat × List SwFlow
  | [] => ([], 0, [])
  | none :: rest =>
    let r := deleteMatchingBuckets p rest
    (none :: r.1, r.2.1, r.2.2)
  | some f :: rest =>
    let r := deleteMatchingBuckets p rest
    if p f then (none :: r.1, r.2.1 + 1, f :: r.2.2)
    else (some f :: r.1, r.2.1, r.2.2)

/-- `table_hash_delete` (with the external `flow_del_matches` predicate `dm`):
exact path checks only the key's own bucket; wildcard path scans all buckets;
`th->n_flows -= count` at the end.  Returns (count, table, freed flows). -/
def table_hash_delete (dm : FlowKey → FlowKey → Bool → Bool)
    (th : SwTableHash) (key : FlowKey) (strict : Bool) :
    Nat × SwTableHash × List SwFlow :=
  let r :=
    if key.wildcards = 0 then
      match th.bucketAt (find_bucket th key) with
      | some flow =>
        if flow.key = key then
          (th.buckets.set (find_bucket th key) none, 1, [flow])
        else (th.buckets, 0, [])
      | none => (th.buckets, 0, [])
    else
      deleteMatchingBuckets (fun f => dm f.key key strict) th.buckets
  (r.2.1, { th with buckets := r.1, n_flows := usub th.n_flows r.2.1 }, r.2.2)

/-- Event trace of `table_hash_timeout`: the notifier call
`dp_send_flow_expired(dp, flow)` and the release `flow_free` (inside
`do_delete`) on a given flow. -/
inductive TimeoutEvent where
  | notified (f : SwFlow)
  | freed (f : SwFlow)
deriving DecidableEq, Repr

/-- Scan loop of `table_hash_timeout`, processed bucket-by-bucket in index
order: for each occupied bucket whose flow satisfies `ft` (`flow_timeout`),
emits `notified` then `freed` and clears the bucket.  Returns the new bucket
array, the expired count, and the event trace in program order. -/
def timeoutBuckets (ft : SwFlow → Bool) :
    List (Option SwFlow) → List (Option SwFlow) × Nat × List TimeoutEvent
  | [] => ([], 0, [])
  | none :: rest =>
    let r := timeoutBuckets ft rest
    (none :: r.1, r.2.1, r.2.2)
  | some f :: rest =>
    let r := timeoutBuckets ft rest
    if ft f then (none :: r.1, r.2.1 + 1, .notified f :: .freed f :: r.2.2)
    else (some f :: r.1, r.2.1, r.2.2)

/-- `table_hash_timeout` (with the external `flow_timeout` predicate `ft`):
full scan, notify-before-free per expired entry, `th->n_flows -= count`.
Returns (count, table, event trace). -/
def table_hash_timeout (ft : SwFlow → Bool) (th : SwTableHash) :
    Nat × SwTableHash × List TimeoutEvent :=
  let r := timeoutBuckets ft th.buckets
  (r.2.1, { th with buckets := r.1, n_flows := usub th.n_flows r.2.1 }, r.2.2)

/-- Result of `table_hash_create`: either the `assert(!(n_buckets &
(n_buckets - 1)))` fails (the call aborts), or the table is built (allocation
is modelled as always succeeding). -/
inductive CreateResult where
  | assertAbort
  | built (th : SwTableHash)

/-- `table_hash_create(polynomial, n_buckets)` with the polynomial abstracted
to the digest function `crc` it induces: asserts `!(n_buckets & (n_buckets -
1))` (computed in `unsigned int` arithmetic, so `n_buckets = 0` passes), then
builds the table with `bucket_mask = n_buckets - 1` and `n_buckets`
zero-initialized (`calloc`) buckets. -/
def table_hash_create (crc : FlowKey → Nat) (n_buckets : Nat) : CreateResult :=
  if n_buckets &&& usub n_buckets 1 ≠ 0 then
    .assertAbort
  else
    .built { crc32 := crc, n_flows := 0, bucket_mask := usub n_buckets 1,
             buckets := List.replicate n_buckets none }

/-- Table statistics (`struct sw_table_stats`). -/
structure SwTableStats where
  name : String
  n_flows : Nat
  max_flows : Nat

/-- `table_hash_stats`: kind "hash", current count, capacity `bucket_mask+1`. -/
def table_hash_stats (th : SwTableHash) : SwTableStats :=
  { name := "hash", n_flows := th.n_flows, max_flows := uadd th.bucket_mask 1 }

/-- Number of occupied buckets of a bucket array (specification-side count
used to state the `n_flows` invariant). -/
def countOccupied : List (Option SwFlow) → Nat
  | [] => 0
  | none :: rest => countOccupied rest
  | some _ :: rest => countOccupied rest + 1

/-- Double-hash table `struct sw_table_hash2`: two independently parameterized
single-hash subtables (`subtable[0]`, `subtable[1]`). -/
structure SwTableHash2 where
  sub0 : SwTableHash
  sub1 : SwTableHash

/-- `table_hash2_lookup`: probe subtable 0 then subtable 1, returning the
first exact match (the loop body repeats `table_hash_lookup`'s test). -/
def table_hash2_lookup (t2 : SwTableHash2) (key : FlowKey) : Option SwFlow :=
  match table_hash_lookup t2.sub0 key with
  | some flow => some flow
  | none => table_hash_lookup t2.sub1 key

/-- `table_hash2_insert`: try subtable 0's insert; if it returns nonzero,
done; otherwise try subtable 1.  Returns (retval, table, freed flows). -/
def table_hash2_insert (t2 : SwTableHash2) (flow : SwFlow) :
    Nat × SwTableHash2 × List SwFlow :=
  let r0 := table_hash_insert t2.sub0 flow
  if r0.1 ≠ 0 then
    (r0.1, { t2 with sub0 := r0.2.1 }, r0.2.2)
  else
    let r1 := table_hash_insert t2.sub1 flow
    (r1.1, { t2 with sub1 := r1.2.1 }, r1.2.2)

/-- `table_hash2_delete`: unconditionally delete from both subtables and sum
the counts. -/
def table_hash2_delete (dm : FlowKey → FlowKey → Bool → Bool)
    (t2 : SwTableHash2) (key : FlowKey) (strict : Bool) :
    Nat × SwTableHash2 × List SwFlow :=
  let r0 := table_hash_delete dm t2.sub0 key strict
  let r1 := table_hash_delete dm t2.sub1 key strict
  (r0.1 + r1.1, { sub0 := r0.2.1, sub1 := r1.2.1 }, r0.2.2 ++ r1.2.2)

/-- `table_hash2_timeout`: run the timeout scan on both subtables and sum the
counts; events of subtable 0 precede those of subtable 1. -/
def table_hash2_timeout (ft : SwFlow → Bool) (t2 : SwTableHash2) :
    Nat × SwTableHash2 × List TimeoutEvent :=
  let r0 := table_hash_timeout ft t2.sub0
  let r1 := table_hash_timeout ft t2.sub1
  (r0.1 + r1.1, { sub0 := r0.2.1, sub1 := r1.2.1 }, r0.2.2 ++ r1.2.2)

/-- `table_hash2_stats`: kind "hash2"; counts and capacities are element-wise
sums of the two subtables' stats. -/
def table_hash2_stats (t2 : SwTableHash2) : SwTableStats :=
  let s0 := table_hash_stats t2.sub0
  let s1 := table_hash_stats t2.sub1
  { name := "hash2", n_flows := uadd s0.n_flows s1.n_flows,
    max_flows := uadd s0.max_flows s1.max_flows }

/-- Result of `table_hash2_create`: abort if either inner `table_hash_create`
asserts, otherwise both subtables are built (allocation always succeeds in
this model). -/
inductive CreateResult2 where
  | assertAbort
  | built (t2 : SwTableHash2)

/-- `table_hash2_create(poly0, buckets0, poly1, buckets1)`: builds the two
subtables via `table_hash_create`. -/
def table_hash2_create (crc0 : FlowKey → Nat) (buckets0 : Nat)
    (crc1 : FlowKey → Nat) (buckets1 : Nat) : CreateResult2 :=
  match table_hash_create crc0 buckets0 with
  | .assertAbort => .assertAbort
  | .built th0 =>
    match table_hash_create crc1 buckets1 with
    | .assertAbort => .assertAbort
    | .built th1 => .built { sub0 := th0, sub1 := th1 }

/-- Single-table cursor: the caller-visible `swt_iter->flow` together with
the private `struct swt_iterator_hash` position `bucket_i`. -/
structure SwtIterator where
  flow : Option SwFlow
  bucket_i : Nat
deriving DecidableEq, Repr

/-- `next_flow`: scan forward from `bucket_i` while `bucket_i <=
bucket_mask`, stopping at the first occupied bucket; returns the final
`bucket_i` together with the flow found (`none` at the end sentinel). -/
def next_flow (th : SwTableHash) (bucket_i : Nat) : Nat × Option SwFlow :=
  if bucket_i ≤ th.bucket_mask then
    match th.bucketAt bucket_i with
    | some f => (bucket_i, some f)
    | none => next_flow th (bucket_i + 1)
  else
    (bucket_i, none)
termination_by th.bucket_mask + 1 - bucket_i

/-- `table_hash_iterator`: start at bucket 0 and expose the first occupied
entry (or the end sentinel `none`); `malloc` of the iterator is modelled as
succeeding. -/
def table_hash_iterator (th : SwTableHash) : SwtIterator :=
  let r := next_flow th 0
  { flow := r.2, bucket_i := r.1 }

/-- `table_hash_next`: no-op at the end sentinel; otherwise step past the
current bucket and resume the forward scan. -/
def table_hash_next (th : SwTableHash) (it : SwtIterator) : SwtIterator :=
  match it.flow with
  | none => it
  | some _ =>
    let r := next_flow th (it.bucket_i + 1)
    { flow := r.2, bucket_i := r.1 }

/-- Double-table cursor: the caller-visible `swt_iter->flow` plus the private
`struct swt_iterator_hash2` state (`table_i` and the inner single-table
cursor `ih`). -/
structure SwtIterator2 where
  flow : Option SwFlow
  table_i : Nat
  ih : SwtIterator
deriving DecidableEq, Repr

/-- `table_hash2_iterator`: create a cursor over subtable 0; if it is already
at its end sentinel, fall over to a fresh cursor over subtable 1. -/
def table_hash2_iterator (t2 : SwTableHash2) : SwtIterator2 :=
  let ih0 := table_hash_iterator t2.sub0
  match ih0.flow with
  | some f => { flow := some f, table_i := 0, ih := ih0 }
  | none =>
    let ih1 := table_hash_iterator t2.sub1
    { flow := ih1.flow, table_i := 1, ih := ih1 }

/-- `table_hash2_next`: no-op at the end sentinel; otherwise advance the
inner cursor over the active subtable; when it hits its end sentinel, either
fall over from subtable 0 to a fresh cursor over subtable 1, or (already on
subtable 1) stop at the end sentinel. -/
def table_hash2_next (t2 : SwTableHash2) (c : SwtIterator2) : SwtIterator2 :=
  match c.flow with
  | none => c
  | some _ =>
    let th := if c.table_i = 0 then t2.sub0 else t2.sub1
    let ih := table_hash_next th c.ih
    match ih.flow with
    | some f => { c with flow := some f, ih := ih }
    | none =>
      if c.table_i = 0 then
        let ih1 := table_hash_iterator t2.sub1
        { flow := ih1.flow, table_i := 1, ih := ih1 }
      else
        { c with flow := none, ih := ih }

/-- Flows yielded by repeatedly advancing a single-table cursor (with enough
fuel); specification-side harness for the iteration claims. -/
def collectFlows (th : SwTableHash) (it : SwtIterator) : Nat → List SwFlow
  | 0 => []
  | fuel + 1 =>
    match it.flow with
    | none => []
    | some f => f :: collectFlows th (table_hash_next th it) fuel

/-- Flows yielded by repeatedly advancing a double-table cursor (with enough
fuel); specification-side harness for the iteration claims. -/
def collectFlows2 (t2 : SwTableHash2) (c : SwtIterator2) : Nat → List SwFlow
  | 0 => []
  | fuel + 1 =>
    match c.flow with
    | none => []
    | some f => f :: collectFlows2 t2 (table_hash2_next t2 c) fuel

theorem UINT_MOD_pos : 0 < UINT_MOD := by
  unfold UINT_MOD
  omega

theorem UINT_MOD_eq_two_pow : UINT_MOD = 2 ^ 32 := by
  unfold UINT_MOD
  norm_num

theorem usub_eq_wrap {a b : Nat} (ha : a < UINT_MOD) :
    usub a b = (a + UINT_MOD - b % UINT_MOD) % UINT_MOD := by
  unfold usub
  have hbm : b % UINT_MOD < UINT_MOD := Nat.mod_lt b UINT_MOD_pos
  by_cases h : b % UINT_MOD ≤ a
  · rw [if_pos h]
    have h1 : a + UINT_MOD - b % UINT_MOD = (a - b % UINT_MOD) + UINT_MOD := by
      omega
    have h2 : a - b % UINT_MOD < UINT_MOD := by omega
    rw [h1, Nat.add_mod_right, Nat.mod_eq_of_lt h2]
  · rw [if_neg h]
    exact (Nat.mod_eq_of_lt (by omega)).symm

theorem usub_eq_sub {a b : Nat} (hba : b ≤ a) (ha : a < UINT_MOD) :
    usub a b = a - b := by
  unfold usub
  rw [Nat.mod_eq_of_lt (lt_of_le_of_lt hba ha), if_pos hba]

theorem uadd_eq_add {a b : Nat} (h : a + b < UINT_MOD) : uadd a b = a + b := by
  unfold uadd
  exact Nat.mod_eq_of_lt h

theorem getD_set_self {α : Type} {bs : List (Option α)} {i : Nat}
    (v : Option α) (h : i < bs.length) : (bs.set i v).getD i none = v := by
  rw [List.getD_eq_getElem?_getD, List.getElem?_set]
  simp [h]

theorem getD_set_ne {α : Type} {bs : List (Option α)} {i j : Nat}
    (v : Option α) (h : i ≠ j) : (bs.set i v).getD j none = bs.getD j none := by
  rw [List.getD_eq_getElem?_getD, List.getElem?_set, if_neg h,
    ← List.getD_eq_getElem?_getD]

theorem countOccupied_le_length (bs : List (Option SwFlow)) :
    countOccupied bs ≤ bs.length := by
  induction bs with
  | nil => simp [countOccupied]
  | cons b rest ih =>
    cases b <;> simp [countOccupied] <;> omega

theorem countOccupied_set_some_of_none {bs : List (Option SwFlow)} {i : Nat}
    (f : SwFlow) (hnone : bs.getD i none = none) (hi : i < bs.length) :
    countOccupied (bs.set i (some f)) = countOccupied bs + 1 := by
  induction bs generalizing i with
  | nil => simp at hi
  | cons b rest ih =>
    cases i with
    | zero =>
      simp only [List.getD_cons_zero] at hnone
      subst hnone
      simp [countOccupied]
    | succ j =>
      simp only [List.getD_cons_succ] at hnone
      simp only [List.length_cons, Nat.succ_lt_succ_iff] at hi
      cases b <;> simp only [List.set_cons_succ, countOccupied, ih hnone hi]

theorem countOccupied_set_some_of_some {bs : List (Option SwFlow)} {i : Nat}
    (f g : SwFlow) (hsome : bs.getD i none = some g) :
    countOccupied (bs.set i (some f)) = countOccupied bs := by
  induction bs generalizing i with
  | nil => simp [List.getD] at hsome
  | cons b rest ih =>
    cases i with
    | zero =>
      simp only [List.getD_cons_zero] at hsome
      subst hsome
      simp [countOccupied]
    | succ j =>
      simp only [List.getD_cons_succ] at hsome
      cases b <;> simp only [List.set_cons_succ, countOccupied, ih hsome]

theorem countOccupied_set_none_of_some {bs : List (Option SwFlow)} {i : Nat}
    (g : SwFlow) (hsome : bs.getD i none = some g) :
    countOccupied (bs.set i none) + 1 = countOccupied bs := by
  induction bs generalizing i with
  | nil => simp [List.getD] at hsome
  | cons b rest ih =>
    cases i with
    | zero =>
      simp only [List.getD_cons_zero] at hsome
      subst hsome
      simp [countOccupied]
    | succ j =>
      simp only [List.getD_cons_succ] at hsome
      have hr := ih hsome
      cases b <;> simp only [List.set_cons_succ, countOccupied] <;> omega

theorem countOccupied_lt_length {bs : List (Option SwFlow)} {i : Nat}
    (hnone : bs.getD i none = none) (hi : i < bs.length) :
    countOccupied bs < bs.length := by
  induction bs generalizing i with
  | nil => simp at hi
  | cons b rest ih =>
    cases i with
    | zero =>
      simp only [List.getD_cons_zero] at hnone
      subst hnone
      simp only [countOccupied, List.length_cons]
      exact Nat.lt_succ_of_le (countOccupied_le_length rest)
    | succ j =>
      simp only [List.getD_cons_succ] at hnone
      simp only [List.length_cons, Nat.succ_lt_succ_iff] at hi
      have hr := ih hnone hi
      cases b <;> simp only [countOccupied, List.length_cons] <;> omega

theorem countOccupied_pos_of_some {bs : List (Option SwFlow)} {i : Nat}
    (g : SwFlow) (hsome : bs.getD i none = some g) :
    1 ≤ countOccupied bs := by
  induction bs generalizing i with
  | nil => simp [List.getD] at hsome
  | cons b rest ih =>
    cases i with
    | zero =>
      simp only [List.getD_cons_zero] at hsome
      subst hsome
      simp [countOccupied]
    | succ j =>
      simp only [List.getD_cons_succ] at hsome
      cases b
      · simpa [countOccupied] using ih hsome
      · simp [countOccupied]

theorem countOccupied_replicate (n : Nat) :
    countOccupied (List.replicate n (none : Option SwFlow)) = 0 := by
  induction n with
  | zero => simp [countOccupied]
  | succ m ih => simpa [List.replicate_succ, countOccupied] using ih

theorem pow2_and_pred (k : Nat) : 2 ^ k &&& (2 ^ k - 1) = 0 := by
  apply Nat.zero_of_testBit_eq_false
  intro i
  rw [Nat.testBit_land]
  rcases eq_or_ne i k with rfl | hik
  · rw [Nat.testBit_two_pow_sub_one]
    simp
  · rw [Nat.testBit_two_pow_of_ne (Ne.symm hik)]
    simp

theorem and_pred_eq_zero_pow2 {n : Nat} (hn : 0 < n) (h : n &&& (n - 1) = 0) :
    ∃ k, n = 2 ^ k := by
  refine ⟨n.log2, ?_⟩
  by_contra hne
  have h1 : 2 ^ n.log2 ≤ n := Nat.log2_self_le hn.ne'
  have h2 : n < 2 ^ (n.log2 + 1) := Nat.lt_log2_self
  rw [pow_succ] at h2
  have hlt : 2 ^ n.log2 < n := lt_of_le_of_ne h1 fun he => hne he.symm
  have hp : 0 < 2 ^ n.log2 := Nat.pos_pow_of_pos _ (by omega)
  have hd1 : n / 2 ^ n.log2 = 1 := by
    have ha := (Nat.le_div_iff_mul_le hp).2 (by omega : 1 * 2 ^ n.log2 ≤ n)
    have hb := (Nat.div_lt_iff_lt_mul hp).2 (by omega : n < 2 * 2 ^ n.log2)
    omega
  have hd2 : (n - 1) / 2 ^ n.log2 = 1 := by
    have ha := (Nat.le_div_iff_mul_le hp).2 (by omega : 1 * 2 ^ n.log2 ≤ n - 1)
    have hb := (Nat.div_lt_iff_lt_mul hp).2 (by omega : n - 1 < 2 * 2 ^ n.log2)
    omega
  have ht1 : n.testBit n.log2 = true := by
    rw [Nat.testBit_to_div_mod, hd1]
    simp
  have ht2 : (n - 1).testBit n.log2 = true := by
    rw [Nat.testBit_to_div_mod, hd2]
    simp
  have hand := Nat.testBit_land n (n - 1) n.log2
  rw [h, Nat.zero_testBit, ht1, ht2] at hand
  simp at hand

theorem table_hash_insert_retval (th : SwTableHash) (f : SwFlow) :
    (table_hash_insert th f).1 = 0 ∨ (table_hash_insert th f).1 = 1 := by
  unfold table_hash_insert
  split
  · simp
  · split
    · simp
    · split <;> simp

theorem table_hash_insert_retval_one_iff (th : SwTableHash) (f : SwFlow) :
    (table_hash_insert th f).1 = 1 ↔
      f.key.wildcards = 0 ∧
        (th.bucketAt (find_bucket th f.key) = none ∨
          ∃ old, th.bucketAt (find_bucket th f.key) = some old ∧
            old.key = f.key) := by
  unfold table_hash_insert
  split
  · rename_i hw
    simp [hw]
  · rename_i hw
    push_neg at hw
    split
    · rename_i hb
      simp [hw, hb]
    · rename_i old hb
      split
      · rename_i heq
        simp only [hb, hw, true_and, true_iff]
        exact Or.inr ⟨old, rfl, heq⟩
      · rename_i hne
        simp only [hb, hw, true_and, Nat.zero_ne_one, false_iff]
        rintro (h | ⟨old2, ho, hk⟩)
        · exact Option.noConfusion h
        · cases ho
          exact hne hk

theorem table_hash_insert_eq (th : SwTableHash) (f : SwFlow) :
    (f.key.wildcards ≠ 0 ∧ table_hash_insert th f = (0, th, [])) ∨
    (f.key.wildcards = 0 ∧ th.bucketAt (find_bucket th f.key) = none ∧
      table_hash_insert th f =
        (1, { th with n_flows := uadd th.n_flows 1,
                      buckets := th.buckets.set (find_bucket th f.key)
                        (some f) }, [])) ∨
    (∃ old, f.key.wildcards = 0 ∧
      th.bucketAt (find_bucket th f.key) = some old ∧ old.key = f.key ∧
      table_hash_insert th f =
        (1, { th with buckets := th.buckets.set (find_bucket th f.key)
                        (some f) }, [old])) ∨
    (∃ old, f.key.wildcards = 0 ∧
      th.bucketAt (find_bucket th f.key) = some old ∧ old.key ≠ f.key ∧
      table_hash_insert th f = (0, th, [])) := by
  unfold table_hash_insert
  split
  · rename_i hw
    exact Or.inl ⟨hw, rfl⟩
  · rename_i hw
    push_neg at hw
    split
    · rename_i hb
      exact Or.inr (Or.inl ⟨hw, hb, rfl⟩)
    · rename_i old hb
      split
      · rename_i hk
        exact Or.inr (Or.inr (Or.inl ⟨old, hw, hb, hk, rfl⟩))
      · rename_i hk
        exact Or.inr (Or.inr (Or.inr ⟨old, hw, hb, hk, rfl⟩))

theorem insert_accept_state {th : SwTableHash} {f : SwFlow}
    (hacc : (table_hash_insert th f).1 = 1) :
    (table_hash_insert th f).2.1.buckets =
      th.buckets.set (find_bucket th f.key) (some f) ∧
    (table_hash_insert th f).2.1.crc32 = th.crc32 ∧
    (table_hash_insert th f).2.1.bucket_mask = th.bucket_mask ∧
    f.key.wildcards = 0 := by
  rcases table_hash_insert_eq th f with ⟨hw, he⟩ | ⟨hw, hb, he⟩ |
    ⟨old, hw, hb, hk, he⟩ | ⟨old, hw, hb, hk, he⟩ <;> rw [he] at hacc ⊢
  · simp at hacc
  · exact ⟨rfl, rfl, rfl, hw⟩
  · exact ⟨rfl, rfl, rfl, hw⟩
  · simp at hacc

theorem insert_reject_state {th : SwTableHash} {f : SwFlow}
    (hrej : (table_hash_insert th f).1 = 0) :
    (table_hash_insert th f).2.1 = th ∧ (table_hash_insert th f).2.2 = [] := by
  rcases table_hash_insert_eq th f with ⟨hw, he⟩ | ⟨hw, hb, he⟩ |
    ⟨old, hw, hb, hk, he⟩ | ⟨old, hw, hb, hk, he⟩ <;> rw [he] at hrej ⊢
  · exact ⟨rfl, rfl⟩
  · simp at hrej
  · simp at hrej
  · exact ⟨rfl, rfl⟩

theorem find_bucket_congr {th1 th2 : SwTableHash}
    (hc : th1.crc32 = th2.crc32) (hm : th1.bucket_mask = th2.bucket_mask)
    (k : FlowKey) : find_bucket th1 k = find_bucket th2 k := by
  unfold find_bucket
  rw [hc, hm]

theorem find_bucket_le_mask (th : SwTableHash) (k : FlowKey) :
    find_bucket th k ≤ th.bucket_mask :=
  Nat.and_le_right

/-- Concrete digest function: every key hashes to 0 (a legal instantiation of
the external CRC-32 collaborator, forcing collisions). -/
def crcConst : FlowKey → Nat := fun _ => 0

/-- Concrete digest function: a key hashes to its `fields` value. -/
def crcFields : FlowKey → Nat := fun k => k.fields

/-- Concrete exact-match key. -/
def keyA : FlowKey := ⟨0, 1⟩

/-- Concrete exact-match key distinct from `keyA`. -/
def keyB : FlowKey := ⟨0, 2⟩

/-- Concrete wildcarded key. -/
def keyW : FlowKey := ⟨3, 7⟩

/-- Fresh 4-bucket single-hash table with the constant digest. -/
def table4z : SwTableHash :=
  { crc32 := crcConst, n_flows := 0, bucket_mask := 3,
    buckets := List.replicate 4 none }

/-- Fresh 4-bucket single-hash table with the `fields` digest. -/
def table4f : SwTableHash :=
  { crc32 := crcFields, n_flows := 0, bucket_mask := 3,
    buckets := List.replicate 4 none }

/-- C9: whenever a single-hash insert rejects (wildcarded key, or bucket
occupied by a different key, i.e. retval 0), the returned table is exactly
the input table — every bucket and `n_flows` unchanged — and no flow is
freed, so ownership of the rejected entry stays with the caller. -/
theorem C9_insert_reject_no_change (th : SwTableHash) (f : SwFlow)
    (h : (table_hash_insert th f).1 = 0) :
    (table_hash_insert th f).2.1 = th ∧
    (∀ j, (table_hash_insert th f).2.1.bucketAt j = th.bucketAt j) ∧
    (table_hash_insert th f).2.1.n_flows = th.n_flows ∧
    (table_hash_insert th f).2.2 = [] := by
  obtain ⟨h1, h2⟩ := insert_reject_state h
  exact ⟨h1, fun j => by rw [h1], by rw [h1], h2⟩

/-- Witness for C9 at a concrete rejected insert (wildcarded key). -/
theorem C9_witness :
    (table_hash_insert table4z ⟨keyW, 13⟩).1 = 0 ∧
    ((table_hash_insert table4z ⟨keyW, 13⟩).2.1 = table4z ∧
      (∀ j, (table_hash_insert table4z ⟨keyW, 13⟩).2.1.bucketAt j =
        table4z.bucketAt j) ∧
      (table_hash_insert table4z ⟨keyW, 13⟩).2.1.n_flows = table4z.n_flows ∧
      (table_hash_insert table4z ⟨keyW, 13⟩).2.2 = []) :=
  ⟨rfl, C9_insert_reject_no_change table4z ⟨keyW, 13⟩ rfl⟩

theorem table_hash2_insert_retval (t2 : SwTableHash2) (f : SwFlow) :
    (table_hash2_insert t2 f).1 = 0 ∨ (table_hash2_insert t2 f).1 = 1 := by
  by_cases h0 : (table_hash_insert t2.sub0 f).1 ≠ 0
  · have hc := table_hash_insert_retval t2.sub0 f
    simp only [table_hash2_insert, if_pos h0]
    tauto
  · simp only [table_hash2_insert, if_neg h0]
    exact table_hash_insert_retval t2.sub1 f

/-- C1 (corrected): the insert return value is binary — 1 for accepted
(stored in an empty bucket, or stored after freeing an occupant with a
byte-identical key), 0 for rejected (wildcarded key, or bucket occupied by a
different key) — for both table flavors; it does not distinguish
accepted-new from accepted-replace. -/
theorem C1_insert_outcome_binary (th : SwTableHash) (t2 : SwTableHash2)
    (f : SwFlow) :
    ((table_hash_insert th f).1 = 1 ↔
      f.key.wildcards = 0 ∧
        (th.bucketAt (find_bucket th f.key) = none ∨
          ∃ old, th.bucketAt (find_bucket th f.key) = some old ∧
            old.key = f.key)) ∧
    ((table_hash_insert th f).1 = 0 ∨ (table_hash_insert th f).1 = 1) ∧
    ((table_hash2_insert t2 f).1 = 0 ∨ (table_hash2_insert t2 f).1 = 1) :=
  ⟨table_hash_insert_retval_one_iff th f, table_hash_insert_retval th f,
    table_hash2_insert_retval t2 f⟩

/-- C1 counterexample: an accepted-new insert (into the empty bucket 0 of a
fresh table, freeing nothing) and an accepted-replace insert (freeing the
byte-identical-key occupant) both return 1, so the returned outcome does not
let the caller distinguish accepted-new from accepted-replace. -/
theorem C1_counterexample :
    table4z.bucketAt 0 = none ∧
    (table_hash_insert table4z ⟨keyA, 7⟩).1 = 1 ∧
    (table_hash_insert table4z ⟨keyA, 7⟩).2.2 = [] ∧
    (table_hash_insert (table_hash_insert table4z ⟨keyA, 7⟩).2.1
      ⟨keyA, 8⟩).1 = 1 ∧
    (table_hash_insert (table_hash_insert table4z ⟨keyA, 7⟩).2.1
      ⟨keyA, 8⟩).2.2 = [⟨keyA, 7⟩] :=
  ⟨rfl, rfl, rfl, rfl, rfl⟩

/-- C3 (corrected): for every nonzero `unsigned int` bucket count, the
construction assertion `!(n_buckets & (n_buckets - 1))` fails exactly when
the count is not a power of two, aborting instead of building a table.  (As
stated over all non-powers of two the claim fails at `n_buckets = 0`, which
passes the assertion.) -/
theorem C3_create_assert_pow2 (crc : FlowKey → Nat) (n : Nat)
    (h0 : 0 < n) (h32 : n < UINT_MOD) :
    (table_hash_create crc n = .assertAbort ↔ ¬∃ k, n = 2 ^ k) := by
  have hu : usub n 1 = n - 1 := usub_eq_sub (by omega) h32
  constructor
  · intro habort hex
    obtain ⟨k, rfl⟩ := hex
    unfold table_hash_create at habort
    rw [hu, pow2_and_pred] at habort
    simp at habort
  · intro hnex
    have hz : n &&& (n - 1) ≠ 0 := fun hz => hnex (and_pred_eq_zero_pow2 h0 hz)
    unfold table_hash_create
    rw [hu]
    simp [hz]

/-- Witness for C3 at the concrete non-power-of-two bucket count 12. -/
theorem C3_witness :
    0 < 12 ∧ 12 < UINT_MOD ∧
    (table_hash_create crcConst 12 = .assertAbort ↔ ¬∃ k, 12 = 2 ^ k) :=
  ⟨by decide, by decide,
    C3_create_assert_pow2 crcConst 12 (by decide) (by decide)⟩

/-- C3 counterexample: `n_buckets = 0` is not a power of two, yet the
assertion passes (in `unsigned` arithmetic `0 & (0 - 1) = 0`) and
construction builds a degenerate table instead of aborting. -/
theorem C3_counterexample :
    table_hash_create crcConst 0 =
      .built { crc32 := crcConst, n_flows := 0, bucket_mask := UINT_MOD - 1,
               buckets := [] } ∧
    ¬∃ k, (0 : Nat) = 2 ^ k := by
  constructor
  · rfl
  · rintro ⟨k, hk⟩
    have h := Nat.pos_pow_of_pos k (by omega : 0 < 2)
    omega

/-- C4: for distinct non-wildcarded keys hashing to the same bucket, after
an accepted insert of the first flow, inserting the second is rejected
without evicting the occupant, lookup of the second key is not-found, and
lookup of the first key still returns the first flow. -/
theorem C4_collision_reject (th : SwTableHash) (f1 f2 : SwFlow)
    (hwf : th.buckets.length = th.bucket_mask + 1)
    (hne : f1.key ≠ f2.key)
    (hcol : find_bucket th f1.key = find_bucket th f2.key)
    (hacc : (table_hash_insert th f1).1 = 1) :
    (table_hash_insert (table_hash_insert th f1).2.1 f2).1 = 0 ∧
    (table_hash_insert (table_hash_insert th f1).2.1 f2).2.1 =
      (table_hash_insert th f1).2.1 ∧
    table_hash_lookup (table_hash_insert th f1).2.1 f2.key = none ∧
    table_hash_lookup (table_hash_insert th f1).2.1 f1.key = some f1 := by
  obtain ⟨hbk, hcrc, hmask, _⟩ := insert_accept_state hacc
  have hfb : ∀ k, find_bucket (table_hash_insert th f1).2.1 k =
      find_bucket th k := fun k => find_bucket_congr hcrc hmask k
  have hi_lt : find_bucket th f1.key < th.buckets.length := by
    rw [hwf]
    exact Nat.lt_succ_of_le (find_bucket_le_mask th f1.key)
  have hb1 : (table_hash_insert th f1).2.1.bucketAt (find_bucket th f1.key) =
      some f1 := by
    rw [SwTableHash.bucketAt, hbk]
    exact getD_set_self _ hi_lt
  have hb2 : (table_hash_insert th f1).2.1.bucketAt
      (find_bucket (table_hash_insert th f1).2.1 f2.key) = some f1 := by
    rw [hfb, ← hcol]
    exact hb1
  have hrej : table_hash_insert (table_hash_insert th f1).2.1 f2 =
      (0, (table_hash_insert th f1).2.1, []) := by
    rcases table_hash_insert_eq (table_hash_insert th f1).2.1 f2 with
      ⟨hw, he⟩ | ⟨hw, hb, he⟩ | ⟨old, hw, hb, hk, he⟩ | ⟨old, hw, hb, hk, he⟩
    · exact he
    · rw [hb2] at hb
      exact Option.noConfusion hb
    · rw [hb2] at hb
      injection hb with hb
      exact absurd (hb ▸ hk) hne
    · exact he
  refine ⟨?_, ?_, ?_, ?_⟩
  · rw [hrej]
  · rw [hrej]
  · unfold table_hash_lookup
    rw [hb2]
    simp [hne]
  · unfold table_hash_lookup
    rw [hfb, hb1]
    simp

/-- Witness for C4: in a fresh 4-bucket table with the constant digest,
`keyA` and `keyB` are distinct and collide in bucket 0. -/
theorem C4_witness :
    table4z.buckets.length = table4z.bucket_mask + 1 ∧
    (⟨keyA, 1⟩ : SwFlow).key ≠ (⟨keyB, 2⟩ : SwFlow).key ∧
    find_bucket table4z keyA = find_bucket table4z keyB ∧
    (table_hash_insert table4z ⟨keyA, 1⟩).1 = 1 ∧
    ((table_hash_insert (table_hash_insert table4z ⟨keyA, 1⟩).2.1
        ⟨keyB, 2⟩).1 = 0 ∧
      (table_hash_insert (table_hash_insert table4z ⟨keyA, 1⟩).2.1
        ⟨keyB, 2⟩).2.1 = (table_hash_insert table4z ⟨keyA, 1⟩).2.1 ∧
      table_hash_lookup (table_hash_insert table4z ⟨keyA, 1⟩).2.1
        (⟨keyB, 2⟩ : SwFlow).key = none ∧
      table_hash_lookup (table_hash_insert table4z ⟨keyA, 1⟩).2.1
        (⟨keyA, 1⟩ : SwFlow).key = some ⟨keyA, 1⟩) :=
  ⟨rfl, by decide, rfl, rfl,
    C4_collision_reject table4z ⟨keyA, 1⟩ ⟨keyB, 2⟩ rfl (by decide) rfl rfl⟩

/-- C10: advancing a cursor that is already at the end sentinel (current
entry absent) is a no-op for both table flavors, for any table state and any
number of repeated calls; the table itself is never touched by `next` (the
operation reads it only). -/
theorem C10_next_at_end_noop (th : SwTableHash) (t2 : SwTableHash2)
    (it : SwtIterator) (c : SwtIterator2)
    (h1 : it.flow = none) (h2 : c.flow = none) :
    (∀ n, (table_hash_next th)^[n] it = it) ∧
    (∀ n, (table_hash2_next t2)^[n] c = c) := by
  have s1 : table_hash_next th it = it := by
    unfold table_hash_next
    rw [h1]
  have s2 : table_hash2_next t2 c = c := by
    unfold table_hash2_next
    rw [h2]
  constructor
  · intro n
    induction n with
    | zero => rfl
    | succ m ih => rw [Function.iterate_succ_apply, s1, ih]
  · intro n
    induction n with
    | zero => rfl
    | succ m ih => rw [Function.iterate_succ_apply, s2, ih]

/-- Witness for C10 at concrete end-sentinel cursors over concrete tables. -/
theorem C10_witness :
    (⟨none, 7⟩ : SwtIterator).flow = none ∧
    (⟨none, 1, ⟨none, 2⟩⟩ : SwtIterator2).flow = none ∧
    ((∀ n, (table_hash_next table4z)^[n] ⟨none, 7⟩ = ⟨none, 7⟩) ∧
      (∀ n, (table_hash2_next ⟨table4z, table4f⟩)^[n] ⟨none, 1, ⟨none, 2⟩⟩ =
        ⟨none, 1, ⟨none, 2⟩⟩)) :=
  ⟨rfl, rfl,
    C10_next_at_end_noop table4z ⟨table4z, table4f⟩ ⟨none, 7⟩
      ⟨none, 1, ⟨none, 2⟩⟩ rfl rfl⟩

/-- Occupied entries of a bucket array satisfying `p`, in bucket order
(specification-side helper). -/
def matchingFlows (p : SwFlow → Bool) (bs : List (Option SwFlow)) :
    List SwFlow :=
  (bs.filterMap id).filter p

/-- Expected event trace of a timeout scan: one `notified` immediately
followed by one `freed` per flow, in order (specification-side helper). -/
def notifyFreeSeq : List SwFlow → List TimeoutEvent
  | [] => []
  | f :: rest => .notified f :: .freed f :: notifyFreeSeq rest

theorem countOccupied_eq_filterMap (bs : List (Option SwFlow)) :
    countOccupied bs = (bs.filterMap id).length := by
  induction bs with
  | nil => rfl
  | cons b rest ih => cases b <;> simp [countOccupied, ih]

theorem timeoutBuckets_length (ft : SwFlow → Bool) (bs : List (Option SwFlow)) :
    (timeoutBuckets ft bs).1.length = bs.length := by
  induction bs with
  | nil => rfl
  | cons b rest ih =>
    cases b with
    | none => simp [timeoutBuckets, ih]
    | some f => by_cases hf : ft f <;> simp [timeoutBuckets, hf, ih]

theorem timeoutBuckets_count (ft : SwFlow → Bool) (bs : List (Option SwFlow)) :
    (timeoutBuckets ft bs).2.1 = (matchingFlows ft bs).length := by
  induction bs with
  | nil => rfl
  | cons b rest ih =>
    cases b with
    | none => simpa [timeoutBuckets, matchingFlows] using ih
    | some f =>
      by_cases hf : ft f <;>
        simpa [timeoutBuckets, matchingFlows, hf] using ih

theorem timeoutBuckets_events (ft : SwFlow → Bool) (bs : List (Option SwFlow)) :
    (timeoutBuckets ft bs).2.2 = notifyFreeSeq (matchingFlows ft bs) := by
  induction bs with
  | nil => rfl
  | cons b rest ih =>
    cases b with
    | none => simpa [timeoutBuckets, matchingFlows] using ih
    | some f =>
      by_cases hf : ft f <;>
        simp [timeoutBuckets, matchingFlows, hf, notifyFreeSeq] <;>
        simpa [matchingFlows] using ih

theorem timeoutBuckets_occupied (ft : SwFlow → Bool)
    (bs : List (Option SwFlow)) :
    countOccupied (timeoutBuckets ft bs).1 + (timeoutBuckets ft bs).2.1 =
      countOccupied bs := by
  induction bs with
  | nil => rfl
  | cons b rest ih =>
    cases b with
    | none => simpa [timeoutBuckets, countOccupied] using ih
    | some f =>
      by_cases hf : ft f <;>
        simp [timeoutBuckets, countOccupied, hf] <;> omega

theorem timeoutBuckets_getD (ft : SwFlow → Bool) (bs : List (Option SwFlow))
    (j : Nat) :
    (timeoutBuckets ft bs).1.getD j none =
      (bs.getD j none).bind fun f => if ft f then none else some f := by
  induction bs generalizing j with
  | nil => cases j <;> rfl
  | cons b rest ih =>
    cases b with
    | none =>
      cases j with
      | zero => simp [timeoutBuckets]
      | succ m => simpa [timeoutBuckets] using ih m
    | some f =>
      cases j with
      | zero => by_cases hf : ft f <;> simp [timeoutBuckets, hf]
      | succ m =>
        by_cases hf : ft f <;> simpa [timeoutBuckets, hf] using ih m

theorem matchingFlows_length_le (p : SwFlow → Bool) (bs : List (Option SwFlow)) :
    (matchingFlows p bs).length ≤ countOccupied bs := by
  rw [countOccupied_eq_filterMap, matchingFlows]
  exact List.length_filter_le p (bs.filterMap id)

theorem table_hash_timeout_spec (ft : SwFlow → Bool) (th : SwTableHash)
    (hcnt : th.n_flows = countOccupied th.buckets)
    (hsz : th.buckets.length < UINT_MOD) :
    (table_hash_timeout ft th).1 = (matchingFlows ft th.buckets).length ∧
    (table_hash_timeout ft th).2.2 =
      notifyFreeSeq (matchingFlows ft th.buckets) ∧
    (∀ j, (table_hash_timeout ft th).2.1.bucketAt j =
      (th.bucketAt j).bind fun f => if ft f then none else some f) ∧
    (table_hash_timeout ft th).2.1.n_flows + (table_hash_timeout ft th).1 =
      th.n_flows := by
  have hcountle : (matchingFlows ft th.buckets).length ≤ th.n_flows := by
    rw [hcnt]
    exact matchingFlows_length_le ft th.buckets
  have hocc : countOccupied th.buckets ≤ th.buckets.length :=
    countOccupied_le_length th.buckets
  have hc := timeoutBuckets_count ft th.buckets
  refine ⟨?_, ?_, ?_, ?_⟩
  · simpa [table_hash_timeout] using hc
  · simpa [table_hash_timeout] using timeoutBuckets_events ft th.buckets
  · intro j
    simpa [table_hash_timeout, SwTableHash.bucketAt] using
      timeoutBuckets_getD ft th.buckets j
  · have h1 : (table_hash_timeout ft th).2.1.n_flows =
        usub th.n_flows (timeoutBuckets ft th.buckets).2.1 := by
      simp [table_hash_timeout]
    have h2 : (table_hash_timeout ft th).1 =
        (timeoutBuckets ft th.buckets).2.1 := by
      simp [table_hash_timeout]
    rw [h1, h2, hc, usub_eq_sub hcountle (by omega)]
    omega

/-- C6: `timeout()` removes exactly the entries reported expired by
`flow_timeout` at call time, emits exactly one notifier call per removed
entry immediately before that entry's free (the event trace is the
notify/free sequence over the expired entries in scan order), leaves every
non-expired bucket untouched, returns the number expired, and decrements
`n_flows` by that number — for both table flavors (the double flavor scans
subtable 0 then subtable 1 and sums the counts). -/
theorem C6_timeout_exact (ft : SwFlow → Bool) (th : SwTableHash)
    (t2 : SwTableHash2)
    (hcnt : th.n_flows = countOccupied th.buckets)
    (hsz : th.buckets.length < UINT_MOD)
    (hcnt0 : t2.sub0.n_flows = countOccupied t2.sub0.buckets)
    (hsz0 : t2.sub0.buckets.length < UINT_MOD)
    (hcnt1 : t2.sub1.n_flows = countOccupied t2.sub1.buckets)
    (hsz1 : t2.sub1.buckets.length < UINT_MOD) :
    ((table_hash_timeout ft th).1 = (matchingFlows ft th.buckets).length ∧
      (table_hash_timeout ft th).2.2 =
        notifyFreeSeq (matchingFlows ft th.buckets) ∧
      (∀ j, (table_hash_timeout ft th).2.1.bucketAt j =
        (th.bucketAt j).bind fun f => if ft f then none else some f) ∧
      (table_hash_timeout ft th).2.1.n_flows + (table_hash_timeout ft th).1 =
        th.n_flows) ∧
    ((table_hash2_timeout ft t2).1 =
        (matchingFlows ft t2.sub0.buckets).length +
          (matchingFlows ft t2.sub1.buckets).length ∧
      (table_hash2_timeout ft t2).2.2 =
        notifyFreeSeq (matchingFlows ft t2.sub0.buckets) ++
          notifyFreeSeq (matchingFlows ft t2.sub1.buckets) ∧
      (∀ j, (table_hash2_timeout ft t2).2.1.sub0.bucketAt j =
          ((t2.sub0.bucketAt j).bind fun f =>
            if ft f then none else some f) ∧
        (table_hash2_timeout ft t2).2.1.sub1.bucketAt j =
          ((t2.sub1.bucketAt j).bind fun f =>
            if ft f then none else some f)) ∧
      (table_hash2_timeout ft t2).2.1.sub0.n_flows +
          (table_hash2_timeout ft t2).2.1.sub1.n_flows +
          (table_hash2_timeout ft t2).1 =
        t2.sub0.n_flows + t2.sub1.n_flows) := by
  obtain ⟨sa, sb, sc, sd⟩ := table_hash_timeout_spec ft th hcnt hsz
  obtain ⟨s0a, s0b, s0c, s0d⟩ := table_hash_timeout_spec ft t2.sub0 hcnt0 hsz0
  obtain ⟨s1a, s1b, s1c, s1d⟩ := table_hash_timeout_spec ft t2.sub1 hcnt1 hsz1
  have e1 : (table_hash2_timeout ft t2).1 =
      (table_hash_timeout ft t2.sub0).1 + (table_hash_timeout ft t2.sub1).1 :=
    rfl
  have e2 : (table_hash2_timeout ft t2).2.2 =
      (table_hash_timeout ft t2.sub0).2.2 ++
        (table_hash_timeout ft t2.sub1).2.2 := rfl
  have e3 : (table_hash2_timeout ft t2).2.1.sub0 =
      (table_hash_timeout ft t2.sub0).2.1 := rfl
  have e4 : (table_hash2_timeout ft t2).2.1.sub1 =
      (table_hash_timeout ft t2.sub1).2.1 := rfl
  refine ⟨⟨sa, sb, sc, sd⟩, ?_, ?_, ?_, ?_⟩
  · rw [e1, s0a, s1a]
  · rw [e2, s0b, s1b]
  · intro j
    rw [e3, e4]
    exact ⟨s0c j, s1c j⟩
  · rw [e1, e3, e4]
    omega

/-- Concrete expiry predicate: flows with odd `flow_id` are expired. -/
def ftOdd : SwFlow → Bool := fun f => f.flow_id % 2 == 1

/-- Concrete nonempty table: `table4f` after an accepted insert. -/
def tableC : SwTableHash := (table_hash_insert table4f ⟨keyA, 11⟩).2.1

/-- Witness for C6 at a concrete table pair and expiry predicate. -/
theorem C6_witness :
    tableC.n_flows = countOccupied tableC.buckets ∧
    tableC.buckets.length < UINT_MOD ∧
    table4z.n_flows = countOccupied table4z.buckets ∧
    table4z.buckets.length < UINT_MOD ∧
    (((table_hash_timeout ftOdd tableC).1 =
        (matchingFlows ftOdd tableC.buckets).length ∧
      (table_hash_timeout ftOdd tableC).2.2 =
        notifyFreeSeq (matchingFlows ftOdd tableC.buckets) ∧
      (∀ j, (table_hash_timeout ftOdd tableC).2.1.bucketAt j =
        (tableC.bucketAt j).bind fun f => if ftOdd f then none else some f) ∧
      (table_hash_timeout ftOdd tableC).2.1.n_flows +
        (table_hash_timeout ftOdd tableC).1 = tableC.n_flows) ∧
    ((table_hash2_timeout ftOdd ⟨table4z, tableC⟩).1 =
        (matchingFlows ftOdd (table4z : SwTableHash).buckets).length +
          (matchingFlows ftOdd tableC.buckets).length ∧
      (table_hash2_timeout ftOdd ⟨table4z, tableC⟩).2.2 =
        notifyFreeSeq (matchingFlows ftOdd (table4z : SwTableHash).buckets) ++
          notifyFreeSeq (matchingFlows ftOdd tableC.buckets) ∧
      (∀ j, (table_hash2_timeout ftOdd ⟨table4z, tableC⟩).2.1.sub0.bucketAt j =
          ((table4z.bucketAt j).bind fun f =>
            if ftOdd f then none else some f) ∧
        (table_hash2_timeout ftOdd ⟨table4z, tableC⟩).2.1.sub1.bucketAt j =
          ((tableC.bucketAt j).bind fun f =>
            if ftOdd f then none else some f)) ∧
      (table_hash2_timeout ftOdd ⟨table4z, tableC⟩).2.1.sub0.n_flows +
          (table_hash2_timeout ftOdd ⟨table4z, tableC⟩).2.1.sub1.n_flows +
          (table_hash2_timeout ftOdd ⟨table4z, tableC⟩).1 =
        (table4z : SwTableHash).n_flows + tableC.n_flows)) :=
  ⟨by decide, by decide, by decide, by decide,
    C6_timeout_exact ftOdd tableC ⟨table4z, tableC⟩ (by decide) (by decide)
      (by decide) (by decide) (by decide) (by decide)⟩

theorem table_hash_delete_exact_eq (dm : FlowKey → FlowKey → Bool → Bool)
    (th : SwTableHash) (key : FlowKey) (strict : Bool)
    (hw : key.wildcards = 0) :
    (∃ flow, th.bucketAt (find_bucket th key) = some flow ∧ flow.key = key ∧
      table_hash_delete dm th key strict =
        (1, { th with buckets := th.buckets.set (find_bucket th key) none,
                      n_flows := usub th.n_flows 1 }, [flow])) ∨
    (table_hash_delete dm th key strict =
        (0, { th with n_flows := usub th.n_flows 0 }, []) ∧
      ∀ flow, th.bucketAt (find_bucket th key) = some flow →
        flow.key ≠ key) := by
  unfold table_hash_delete
  simp only [if_pos hw]
  cases hb : th.bucketAt (find_bucket th key) with
  | none =>
    refine Or.inr ⟨rfl, ?_⟩
    intro flow hf
    exact Option.noConfusion hf
  | some flow =>
    by_cases hk : flow.key = key
    · refine Or.inl ⟨flow, rfl, hk, ?_⟩
      simp [hk]
    · refine Or.inr ⟨?_, ?_⟩
      · simp [hk]
      · intro flow2 hf
        injection hf with hf
        rw [← hf]
        exact hk

theorem table_hash_delete_exact_spec (dm : FlowKey → FlowKey → Bool → Bool)
    (th : SwTableHash) (key : FlowKey) (strict : Bool)
    (hw : key.wildcards = 0)
    (hcnt : th.n_flows = countOccupied th.buckets)
    (hsz : th.buckets.length < UINT_MOD) :
    (table_hash_delete dm th key strict).1 ≤ 1 ∧
    (table_hash_delete dm th key strict).2.2.length =
      (table_hash_delete dm th key strict).1 ∧
    countOccupied (table_hash_delete dm th key strict).2.1.buckets +
      (table_hash_delete dm th key strict).1 = countOccupied th.buckets ∧
    (table_hash_delete dm th key strict).2.1.n_flows +
      (table_hash_delete dm th key strict).1 = th.n_flows := by
  have hlt : th.n_flows < UINT_MOD := by
    rw [hcnt]
    exact lt_of_le_of_lt (countOccupied_le_length th.buckets) hsz
  rcases table_hash_delete_exact_eq dm th key strict hw with
    ⟨flow, hb, hk, he⟩ | ⟨he, hmiss⟩ <;> rw [he]
  · rw [SwTableHash.bucketAt] at hb
    have h1le : 1 ≤ th.n_flows := by
      rw [hcnt]
      exact countOccupied_pos_of_some flow hb
    refine ⟨Nat.le_refl 1, rfl, ?_, ?_⟩
    · show countOccupied (th.buckets.set (find_bucket th key) none) + 1 =
        countOccupied th.buckets
      exact countOccupied_set_none_of_some flow hb
    · show usub th.n_flows 1 + 1 = th.n_flows
      rw [usub_eq_sub h1le hlt]
      omega
  · refine ⟨Nat.zero_le 1, rfl, rfl, ?_⟩
    show usub th.n_flows 0 + 0 = th.n_flows
    rw [usub_eq_sub (Nat.zero_le _) hlt]
    omega

/-- C8 (corrected): for an exact (all-zero wildcard mask) key, delete removes
at most one entry from each single-hash table — hence at most one for the
single flavor, and at most one per subtable (so at most two in total) for the
double flavor; the returned count equals the number of entries actually
removed, and `n_flows` (for the double flavor, the sum over both subtables)
decreases by exactly that count. -/
theorem C8_exact_delete (dm : FlowKey → FlowKey → Bool → Bool)
    (th : SwTableHash) (t2 : SwTableHash2) (key : FlowKey) (strict : Bool)
    (hw : key.wildcards = 0)
    (hcnt : th.n_flows = countOccupied th.buckets)
    (hsz : th.buckets.length < UINT_MOD)
    (hcnt0 : t2.sub0.n_flows = countOccupied t2.sub0.buckets)
    (hsz0 : t2.sub0.buckets.length < UINT_MOD)
    (hcnt1 : t2.sub1.n_flows = countOccupied t2.sub1.buckets)
    (hsz1 : t2.sub1.buckets.length < UINT_MOD) :
    ((table_hash_delete dm th key strict).1 ≤ 1 ∧
      (table_hash_delete dm th key strict).2.2.length =
        (table_hash_delete dm th key strict).1 ∧
      countOccupied (table_hash_delete dm th key strict).2.1.buckets +
        (table_hash_delete dm th key strict).1 = countOccupied th.buckets ∧
      (table_hash_delete dm th key strict).2.1.n_flows +
        (table_hash_delete dm th key strict).1 = th.n_flows) ∧
    ((table_hash_delete dm t2.sub0 key strict).1 ≤ 1 ∧
      (table_hash_delete dm t2.sub1 key strict).1 ≤ 1 ∧
      (table_hash2_delete dm t2 key strict).1 =
        (table_hash_delete dm t2.sub0 key strict).1 +
          (table_hash_delete dm t2.sub1 key strict).1 ∧
      (table_hash2_delete dm t2 key strict).1 ≤ 2 ∧
      (table_hash2_delete dm t2 key strict).2.2.length =
        (table_hash2_delete dm t2 key strict).1 ∧
      countOccupied (table_hash2_delete dm t2 key strict).2.1.sub0.buckets +
        countOccupied (table_hash2_delete dm t2 key strict).2.1.sub1.buckets +
        (table_hash2_delete dm t2 key strict).1 =
        countOccupied t2.sub0.buckets + countOccupied t2.sub1.buckets ∧
      (table_hash2_delete dm t2 key strict).2.1.sub0.n_flows +
        (table_hash2_delete dm t2 key strict).2.1.sub1.n_flows +
        (table_hash2_delete dm t2 key strict).1 =
        t2.sub0.n_flows + t2.sub1.n_flows) := by
  obtain ⟨sa, sb, sc, sd⟩ := table_hash_delete_exact_spec dm th key strict
    hw hcnt hsz
  obtain ⟨s0a, s0b, s0c, s0d⟩ := table_hash_delete_exact_spec dm t2.sub0 key
    strict hw hcnt0 hsz0
  obtain ⟨s1a, s1b, s1c, s1d⟩ := table_hash_delete_exact_spec dm t2.sub1 key
    strict hw hcnt1 hsz1
  have e1 : (table_hash2_delete dm t2 key strict).1 =
      (table_hash_delete dm t2.sub0 key strict).1 +
        (table_hash_delete dm t2.sub1 key strict).1 := rfl
  have e2 : (table_hash2_delete dm t2 key strict).2.2 =
      (table_hash_delete dm t2.sub0 key strict).2.2 ++
        (table_hash_delete dm t2.sub1 key strict).2.2 := rfl
  have e3 : (table_hash2_delete dm t2 key strict).2.1.sub0 =
      (table_hash_delete dm t2.sub0 key strict).2.1 := rfl
  have e4 : (table_hash2_delete dm t2 key strict).2.1.sub1 =
      (table_hash_delete dm t2.sub1 key strict).2.1 := rfl
  refine ⟨⟨sa, sb, sc, sd⟩, s0a, s1a, e1, by omega, ?_, ?_, ?_⟩
  · rw [e2, e1, List.length_append, s0b, s1b]
  · rw [e3, e4, e1]
    omega
  · rw [e3, e4, e1]
    omega

/-- Witness for C8 at a concrete exact key, single table, and double table. -/
theorem C8_witness :
    keyA.wildcards = 0 ∧
    tableC.n_flows = countOccupied tableC.buckets ∧
    tableC.buckets.length < UINT_MOD ∧
    table4z.n_flows = countOccupied table4z.buckets ∧
    table4z.buckets.length < UINT_MOD ∧
    (((table_hash_delete (fun _ _ _ => false) tableC keyA false).1 ≤ 1 ∧
      (table_hash_delete (fun _ _ _ => false) tableC keyA false).2.2.length =
        (table_hash_delete (fun _ _ _ => false) tableC keyA false).1 ∧
      countOccupied
          (table_hash_delete (fun _ _ _ => false) tableC keyA
            false).2.1.buckets +
        (table_hash_delete (fun _ _ _ => false) tableC keyA false).1 =
        countOccupied tableC.buckets ∧
      (table_hash_delete (fun _ _ _ => false) tableC keyA false).2.1.n_flows +
        (table_hash_delete (fun _ _ _ => false) tableC keyA false).1 =
        tableC.n_flows) ∧
    ((table_hash_delete (fun _ _ _ => false)
        (⟨table4z, tableC⟩ : SwTableHash2).sub0 keyA false).1 ≤ 1 ∧
      (table_hash_delete (fun _ _ _ => false)
        (⟨table4z, tableC⟩ : SwTableHash2).sub1 keyA false).1 ≤ 1 ∧
      (table_hash2_delete (fun _ _ _ => false) ⟨table4z, tableC⟩ keyA
          false).1 =
        (table_hash_delete (fun _ _ _ => false)
          (⟨table4z, tableC⟩ : SwTableHash2).sub0 keyA false).1 +
          (table_hash_delete (fun _ _ _ => false)
            (⟨table4z, tableC⟩ : SwTableHash2).sub1 keyA false).1 ∧
      (table_hash2_delete (fun _ _ _ => false) ⟨table4z, tableC⟩ keyA
          false).1 ≤ 2 ∧
      (table_hash2_delete (fun _ _ _ => false) ⟨table4z, tableC⟩ keyA
          false).2.2.length =
        (table_hash2_delete (fun _ _ _ => false) ⟨table4z, tableC⟩ keyA
          false).1 ∧
      countOccupied
          (table_hash2_delete (fun _ _ _ => false) ⟨table4z, tableC⟩ keyA
            false).2.1.sub0.buckets +
        countOccupied
          (table_hash2_delete (fun _ _ _ => false) ⟨table4z, tableC⟩ keyA
            false).2.1.sub1.buckets +
        (table_hash2_delete (fun _ _ _ => false) ⟨table4z, tableC⟩ keyA
          false).1 =
        countOccupied (⟨table4z, tableC⟩ : SwTableHash2).sub0.buckets +
          countOccupied (⟨table4z, tableC⟩ : SwTableHash2).sub1.buckets ∧
      (table_hash2_delete (fun _ _ _ => false) ⟨table4z, tableC⟩ keyA
          false).2.1.sub0.n_flows +
        (table_hash2_delete (fun _ _ _ => false) ⟨table4z, tableC⟩ keyA
          false).2.1.sub1.n_flows +
        (table_hash2_delete (fun _ _ _ => false) ⟨table4z, tableC⟩ keyA
          false).1 =
        (⟨table4z, tableC⟩ : SwTableHash2).sub0.n_flows +
          (⟨table4z, tableC⟩ : SwTableHash2).sub1.n_flows)) :=
  ⟨by decide, by decide, by decide, by decide, by decide,
    C8_exact_delete (fun _ _ _ => false) tableC ⟨table4z, tableC⟩ keyA false
      (by decide) (by decide) (by decide) (by decide) (by decide)
      (by decide) (by decide)⟩

/-- Trivial instantiation of the external `flow_del_matches` predicate
(never matches); exact-key deletes do not consult it. -/
def dmNever : FlowKey → FlowKey → Bool → Bool := fun _ _ _ => false

/-- Fresh double-hash table whose subtables use the constant digest and the
`fields` digest (so `keyA` and `keyB` collide in subtable 0 but not in
subtable 1). -/
def t2start : SwTableHash2 := { sub0 := table4z, sub1 := table4f }

/-- Double-hash table state reached from `t2start` by the documented
operation sequence insert ⟨keyB,10⟩; insert ⟨keyA,11⟩; delete keyB;
insert ⟨keyA,12⟩.  The first insert occupies subtable 0's bucket for `keyA`
with `keyB`, pushing the second insert into subtable 1; the delete then
frees that bucket, so the final insert of `keyA` lands in subtable 0 while
⟨keyA,11⟩ still sits in subtable 1. -/
def t2dup : SwTableHash2 :=
  (table_hash2_insert
    (table_hash2_delete dmNever
      (table_hash2_insert
        (table_hash2_insert t2start ⟨keyB, 10⟩).2.1 ⟨keyA, 11⟩).2.1
      keyB false).2.1 ⟨keyA, 12⟩).2.1

/-- C2 counterexample: after the insert/insert/delete/insert sequence of
`t2dup` — documented operations only, starting from fresh tables — the key
`keyA` is discoverable in both subtables simultaneously (each subtable's own
lookup finds an entry with that key), refuting the at-most-one-subtable
invariant over all insert/delete/timeout sequences. -/
theorem C2_counterexample :
    table_hash_lookup t2dup.sub0 keyA = some ⟨keyA, 12⟩ ∧
    table_hash_lookup t2dup.sub1 keyA = some ⟨keyA, 11⟩ :=
  ⟨rfl, rfl⟩

/-- C8 counterexample: in the reachable state `t2dup` the exact key `keyA`
resides in both subtables, and `delete(keyA, strict=false)` removes two
entries (count 2, two freed flows), refuting "removes at most one entry" for
the double flavor. -/
theorem C8_counterexample :
    keyA.wildcards = 0 ∧
    (table_hash2_delete dmNever t2dup keyA false).1 = 2 ∧
    (table_hash2_delete dmNever t2dup keyA false).2.2 =
      [⟨keyA, 12⟩, ⟨keyA, 11⟩] :=
  ⟨rfl, rfl, rfl⟩

theorem getD_set_none_self {bs : List (Option SwFlow)} (i : Nat) :
    (bs.set i none).getD i none = none := by
  by_cases hi : i < bs.length
  · exact getD_set_self none hi
  · apply List.getD_eq_default
    rw [List.length_set]
    omega

theorem getD_replicate_none (n j : Nat) :
    (List.replicate n (none : Option SwFlow)).getD j none = none := by
  by_cases hj : j < n
  · rw [List.getD_eq_getElem?_getD, List.getElem?_replicate]
    simp [hj]
  · apply List.getD_eq_default
    rw [List.length_replicate]
    omega

theorem deleteMatchingBuckets_length (p : SwFlow → Bool)
    (bs : List (Option SwFlow)) :
    (deleteMatchingBuckets p bs).1.length = bs.length := by
  induction bs with
  | nil => rfl
  | cons b rest ih =>
    cases b with
    | none => simp [deleteMatchingBuckets, ih]
    | some f => by_cases hf : p f <;> simp [deleteMatchingBuckets, hf, ih]

theorem deleteMatchingBuckets_count (p : SwFlow → Bool)
    (bs : List (Option SwFlow)) :
    (deleteMatchingBuckets p bs).2.1 = (matchingFlows p bs).length := by
  induction bs with
  | nil => rfl
  | cons b rest ih =>
    cases b with
    | none => simpa [deleteMatchingBuckets, matchingFlows] using ih
    | some f =>
      by_cases hf : p f <;>
        simpa [deleteMatchingBuckets, matchingFlows, hf] using ih

theorem deleteMatchingBuckets_freed (p : SwFlow → Bool)
    (bs : List (Option SwFlow)) :
    (deleteMatchingBuckets p bs).2.2 = matchingFlows p bs := by
  induction bs with
  | nil => rfl
  | cons b rest ih =>
    cases b with
    | none => simpa [deleteMatchingBuckets, matchingFlows] using ih
    | some f =>
      by_cases hf : p f <;>
        simpa [deleteMatchingBuckets, matchingFlows, hf] using ih

theorem deleteMatchingBuckets_occupied (p : SwFlow → Bool)
    (bs : List (Option SwFlow)) :
    countOccupied (deleteMatchingBuckets p bs).1 +
      (deleteMatchingBuckets p bs).2.1 = countOccupied bs := by
  induction bs with
  | nil => rfl
  | cons b rest ih =>
    cases b with
    | none => simpa [deleteMatchingBuckets, countOccupied] using ih
    | some f =>
      by_cases hf : p f <;>
        simp [deleteMatchingBuckets, countOccupied, hf] <;> omega

theorem deleteMatchingBuckets_getD (p : SwFlow → Bool)
    (bs : List (Option SwFlow)) (j : Nat) :
    (deleteMatchingBuckets p bs).1.getD j none =
      (bs.getD j none).bind fun f => if p f then none else some f := by
  induction bs generalizing j with
  | nil => cases j <;> rfl
  | cons b rest ih =>
    cases b with
    | none =>
      cases j with
      | zero => simp [deleteMatchingBuckets]
      | succ m => simpa [deleteMatchingBuckets] using ih m
    | some f =>
      cases j with
      | zero => by_cases hf : p f <;> simp [deleteMatchingBuckets, hf]
      | succ m =>
        by_cases hf : p f <;> simpa [deleteMatchingBuckets, hf] using ih m

/-- Structural invariant of a single-hash table: the bucket array realizes
`bucket_mask + 1` buckets (a count within `unsigned int` range), `n_flows`
equals the number of occupied buckets, and every occupied bucket `i` holds a
flow whose key hashes (masked) to `i`. -/
def HashInv (th : SwTableHash) : Prop :=
  th.buckets.length = th.bucket_mask + 1 ∧
  th.buckets.length < UINT_MOD ∧
  th.n_flows = countOccupied th.buckets ∧
  ∀ i f, th.buckets.getD i none = some f → find_bucket th f.key = i

theorem table_hash_delete_wild_eq (dm : FlowKey → FlowKey → Bool → Bool)
    (th : SwTableHash) (key : FlowKey) (strict : Bool)
    (hw : ¬key.wildcards = 0) :
    table_hash_delete dm th key strict =
      ((deleteMatchingBuckets (fun f => dm f.key key strict) th.buckets).2.1,
        { th with
            buckets :=
              (deleteMatchingBuckets (fun f => dm f.key key strict)
                th.buckets).1,
            n_flows :=
              usub th.n_flows
                (deleteMatchingBuckets (fun f => dm f.key key strict)
                  th.buckets).2.1 },
        (deleteMatchingBuckets (fun f => dm f.key key strict)
          th.buckets).2.2) := by
  unfold table_hash_delete
  rw [if_neg hw]

theorem hashInv_created {crc : FlowKey → Nat} {n : Nat} {th : SwTableHash}
    (h0 : 0 < n) (hsz : n < UINT_MOD)
    (he : table_hash_create crc n = .built th) : HashInv th := by
  unfold table_hash_create at he
  split at he
  · exact CreateResult.noConfusion he
  · injection he with he
    subst he
    have hu : usub n 1 = n - 1 := usub_eq_sub (by omega) hsz
    refine ⟨?_, ?_, ?_, ?_⟩
    · show (List.replicate n (none : Option SwFlow)).length = usub n 1 + 1
      rw [List.length_replicate, hu]
      omega
    · show (List.replicate n (none : Option SwFlow)).length < UINT_MOD
      rw [List.length_replicate]
      exact hsz
    · exact (countOccupied_replicate n).symm
    · intro i f hf
      rw [getD_replicate_none] at hf
      exact Option.noConfusion hf

theorem hashInv_insert {th : SwTableHash} (f : SwFlow) (hinv : HashInv th) :
    HashInv (table_hash_insert th f).2.1 := by
  obtain ⟨hwf, hsz, hcnt, hidx⟩ := hinv
  have hilt : find_bucket th f.key < th.buckets.length := by
    rw [hwf]
    exact Nat.lt_succ_of_le (find_bucket_le_mask th f.key)
  rcases table_hash_insert_eq th f with ⟨hw, he⟩ | ⟨hw, hb, he⟩ |
    ⟨old, hw, hb, hk, he⟩ | ⟨old, hw, hb, hk, he⟩ <;> rw [he]
  · exact ⟨hwf, hsz, hcnt, hidx⟩
  · rw [SwTableHash.bucketAt] at hb
    have hocc : countOccupied th.buckets < th.buckets.length :=
      countOccupied_lt_length hb hilt
    refine ⟨?_, ?_, ?_, ?_⟩
    · show (th.buckets.set (find_bucket th f.key) (some f)).length =
        th.bucket_mask + 1
      rw [List.length_set]
      exact hwf
    · show (th.buckets.set (find_bucket th f.key) (some f)).length < UINT_MOD
      rw [List.length_set]
      exact hsz
    · show uadd th.n_flows 1 =
        countOccupied (th.buckets.set (find_bucket th f.key) (some f))
      rw [countOccupied_set_some_of_none f hb hilt,
        uadd_eq_add (by omega), hcnt]
    · intro i g hg
      show find_bucket th g.key = i
      by_cases hij : i = find_bucket th f.key
      · subst hij
        rw [getD_set_self _ hilt] at hg
        injection hg with hg
        rw [← hg]
      · rw [getD_set_ne _ (fun hc => hij hc.symm)] at hg
        exact hidx i g hg
  · rw [SwTableHash.bucketAt] at hb
    refine ⟨?_, ?_, ?_, ?_⟩
    · show (th.buckets.set (find_bucket th f.key) (some f)).length =
        th.bucket_mask + 1
      rw [List.length_set]
      exact hwf
    · show (th.buckets.set (find_bucket th f.key) (some f)).length < UINT_MOD
      rw [List.length_set]
      exact hsz
    · show th.n_flows =
        countOccupied (th.buckets.set (find_bucket th f.key) (some f))
      rw [countOccupied_set_some_of_some f old hb]
      exact hcnt
    · intro i g hg
      show find_bucket th g.key = i
      by_cases hij : i = find_bucket th f.key
      · subst hij
        rw [getD_set_self _ hilt] at hg
        injection hg with hg
        rw [← hg]
      · rw [getD_set_ne _ (fun hc => hij hc.symm)] at hg
        exact hidx i g hg
  · exact ⟨hwf, hsz, hcnt, hidx⟩

theorem hashInv_delete {th : SwTableHash} (dm : FlowKey → FlowKey → Bool → Bool)
    (key : FlowKey) (strict : Bool) (hinv : HashInv th) :
    HashInv (table_hash_delete dm th key strict).2.1 := by
  obtain ⟨hwf, hsz, hcnt, hidx⟩ := hinv
  have hlt : th.n_flows < UINT_MOD := by
    rw [hcnt]
    exact lt_of_le_of_lt (countOccupied_le_length th.buckets) hsz
  by_cases hw : key.wildcards = 0
  · rcases table_hash_delete_exact_eq dm th key strict hw with
      ⟨flow, hb, hk, he⟩ | ⟨he, hmiss⟩ <;> rw [he]
    · rw [SwTableHash.bucketAt] at hb
      have h1le : 1 ≤ th.n_flows := by
        rw [hcnt]
        exact countOccupied_pos_of_some flow hb
      refine ⟨?_, ?_, ?_, ?_⟩
      · show (th.buckets.set (find_bucket th key) none).length =
          th.bucket_mask + 1
        rw [List.length_set]
        exact hwf
      · show (th.buckets.set (find_bucket th key) none).length < UINT_MOD
        rw [List.length_set]
        exact hsz
      · show usub th.n_flows 1 =
          countOccupied (th.buckets.set (find_bucket th key) none)
        rw [usub_eq_sub h1le hlt, hcnt]
        have hco := countOccupied_set_none_of_some flow hb
        omega
      · intro i g hg
        show find_bucket th g.key = i
        by_cases hij : i = find_bucket th key
        · subst hij
          rw [getD_set_none_self] at hg
          exact Option.noConfusion hg
        · rw [getD_set_ne _ (fun hc => hij hc.symm)] at hg
          exact hidx i g hg
    · refine ⟨hwf, hsz, ?_, hidx⟩
      show usub th.n_flows 0 = countOccupied th.buckets
      rw [usub_eq_sub (Nat.zero_le _) hlt, hcnt]
      omega
  · rw [table_hash_delete_wild_eq dm th key strict hw]
    have hcount := deleteMatchingBuckets_count
      (fun f => dm f.key key strict) th.buckets
    have hoccr := deleteMatchingBuckets_occupied
      (fun f => dm f.key key strict) th.buckets
    have hcle : (deleteMatchingBuckets (fun f => dm f.key key strict)
        th.buckets).2.1 ≤ countOccupied th.buckets := by omega
    refine ⟨?_, ?_, ?_, ?_⟩
    · show (deleteMatchingBuckets (fun f => dm f.key key strict)
          th.buckets).1.length = th.bucket_mask + 1
      rw [deleteMatchingBuckets_length]
      exact hwf
    · show (deleteMatchingBuckets (fun f => dm f.key key strict)
          th.buckets).1.length < UINT_MOD
      rw [deleteMatchingBuckets_length]
      exact hsz
    · show usub th.n_flows (deleteMatchingBuckets
          (fun f => dm f.key key strict) th.buckets).2.1 =
        countOccupied (deleteMatchingBuckets
          (fun f => dm f.key key strict) th.buckets).1
      rw [usub_eq_sub (by omega) hlt]
      omega
    · intro i g hg
      show find_bucket th g.key = i
      rw [deleteMatchingBuckets_getD] at hg
      cases hb : th.buckets.getD i none with
      | none =>
        rw [hb] at hg
        exact Option.noConfusion hg
      | some f2 =>
        rw [hb] at hg
        by_cases hm : dm f2.key key strict <;> simp [hm] at hg
        rw [← hg]
        exact hidx i f2 hb

theorem hashInv_timeout {th : SwTableHash} (ft : SwFlow → Bool)
    (hinv : HashInv th) : HashInv (table_hash_timeout ft th).2.1 := by
  obtain ⟨hwf, hsz, hcnt, hidx⟩ := hinv
  have hlt : th.n_flows < UINT_MOD := by
    rw [hcnt]
    exact lt_of_le_of_lt (countOccupied_le_length th.buckets) hsz
  have hcount := timeoutBuckets_count ft th.buckets
  have hoccr := timeoutBuckets_occupied ft th.buckets
  refine ⟨?_, ?_, ?_, ?_⟩
  · show (timeoutBuckets ft th.buckets).1.length = th.bucket_mask + 1
    rw [timeoutBuckets_length]
    exact hwf
  · show (timeoutBuckets ft th.buckets).1.length < UINT_MOD
    rw [timeoutBuckets_length]
    exact hsz
  · show usub th.n_flows (timeoutBuckets ft th.buckets).2.1 =
      countOccupied (timeoutBuckets ft th.buckets).1
    rw [usub_eq_sub (by omega) hlt]
    omega
  · intro i g hg
    show find_bucket th g.key = i
    rw [show (table_hash_timeout ft th).2.1.buckets =
      (timeoutBuckets ft th.buckets).1 from rfl] at hg
    rw [timeoutBuckets_getD] at hg
    cases hb : th.buckets.getD i none with
    | none =>
      rw [hb] at hg
      exact Option.noConfusion hg
    | some f2 =>
      rw [hb] at hg
      by_cases hm : ft f2 <;> simp [hm] at hg
      rw [← hg]
      exact hidx i f2 hb

/-- Single-hash table states reachable from a successfully constructed table
(`table_hash_create` with a nonzero `unsigned` bucket count) by any sequence
of insert, delete, and timeout operations, with arbitrary external
predicates (`flow_del_matches`, `flow_timeout`) at each step. -/
inductive ReachableH : SwTableHash → Prop where
  | created (crc : FlowKey → Nat) (n : Nat) (th : SwTableHash) :
      0 < n → n < UINT_MOD → table_hash_create crc n = .built th →
      ReachableH th
  | insert (th : SwTableHash) (f : SwFlow) : ReachableH th →
      ReachableH (table_hash_insert th f).2.1
  | delete (dm : FlowKey → FlowKey → Bool → Bool) (th : SwTableHash)
      (key : FlowKey) (strict : Bool) : ReachableH th →
      ReachableH (table_hash_delete dm th key strict).2.1
  | timeout (ft : SwFlow → Bool) (th : SwTableHash) : ReachableH th →
      ReachableH (table_hash_timeout ft th).2.1

theorem reachable_hashInv {th : SwTableHash} (h : ReachableH th) :
    HashInv th := by
  induction h with
  | created crc n th h0 hsz he => exact hashInv_created h0 hsz he
  | insert th f _ ih => exact hashInv_insert f ih
  | delete dm th key strict _ ih => exact hashInv_delete dm key strict ih
  | timeout ft th _ ih => exact hashInv_timeout ft ih

/-- C5: in every single-hash table state reachable from a fresh table by any
sequence of insert, delete, and timeout operations, `n_flows` equals the
number of occupied buckets, and every occupied bucket `i` holds an entry
whose key satisfies `hash(entry.key) & bucket_mask == i`. -/
theorem C5_hash_invariant (th : SwTableHash) (h : ReachableH th) :
    th.n_flows = countOccupied th.buckets ∧
    ∀ i f, th.buckets.getD i none = some f → find_bucket th f.key = i := by
  obtain ⟨_, _, hcnt, hidx⟩ := reachable_hashInv h
  exact ⟨hcnt, hidx⟩

/-- Witness for C5 at a concrete reachable state: a freshly created 4-bucket
table after one insert, one (missing-key) delete, and one timeout. -/
theorem C5_witness :
    ((table_hash_timeout ftOdd
        (table_hash_delete dmNever tableC keyB false).2.1).2.1.n_flows =
      countOccupied (table_hash_timeout ftOdd
        (table_hash_delete dmNever tableC keyB false).2.1).2.1.buckets) ∧
    ∀ i f,
      (table_hash_timeout ftOdd
        (table_hash_delete dmNever tableC keyB false).2.1).2.1.buckets.getD
          i none = some f →
      find_bucket (table_hash_timeout ftOdd
        (table_hash_delete dmNever tableC keyB false).2.1).2.1 f.key = i :=
  C5_hash_invariant _
    (ReachableH.timeout ftOdd _
      (ReachableH.delete dmNever _ keyB false
        (ReachableH.insert table4f ⟨keyA, 11⟩
          (ReachableH.created crcFields 4 table4f (by decide) (by decide)
            rfl))))

/-- A key resides in a single-hash table: some bucket holds a flow carrying
that key (specification-side). -/
def KeyIn (th : SwTableHash) (k : FlowKey) : Prop :=
  ∃ i f, th.buckets.getD i none = some f ∧ f.key = k

/-- Cross-subtable invariant of a double-hash table under the insert-only
regime: both subtables satisfy the single-table invariant, and every key
residing in subtable 1 finds its subtable-0 bucket occupied by a different
key (which is what pushed it to subtable 1 and keeps rerouting it there). -/
def Hash2Inv (t2 : SwTableHash2) : Prop :=
  HashInv t2.sub0 ∧ HashInv t2.sub1 ∧
  ∀ k, KeyIn t2.sub1 k →
    ∃ g, t2.sub0.buckets.getD (find_bucket t2.sub0 k) none = some g ∧
      g.key ≠ k

theorem table_hash_create_built {crc : FlowKey → Nat} {n : Nat}
    {th : SwTableHash} (he : table_hash_create crc n = .built th) :
    th = { crc32 := crc, n_flows := 0, bucket_mask := usub n 1,
           buckets := List.replicate n none } := by
  unfold table_hash_create at he
  split at he
  · exact CreateResult.noConfusion he
  · injection he with he
    exact he.symm

theorem hash2Inv_atMostOne {t2 : SwTableHash2} (hinv : Hash2Inv t2)
    (k : FlowKey) : ¬(KeyIn t2.sub0 k ∧ KeyIn t2.sub1 k) := by
  obtain ⟨⟨_, _, _, hidx0⟩, _, hcross⟩ := hinv
  rintro ⟨⟨i, f, hf, hfk⟩, hk1⟩
  obtain ⟨g, hg, hgk⟩ := hcross k hk1
  have hfb : find_bucket t2.sub0 k = i := by
    rw [← hfk]
    exact hidx0 i f hf
  rw [hfb, hf] at hg
  injection hg with hg
  rw [← hg] at hgk
  exact hgk hfk

theorem table_hash2_insert_eq (t2 : SwTableHash2) (f : SwFlow) :
    ((table_hash_insert t2.sub0 f).1 ≠ 0 ∧
      table_hash2_insert t2 f = ((table_hash_insert t2.sub0 f).1,
        { t2 with sub0 := (table_hash_insert t2.sub0 f).2.1 },
        (table_hash_insert t2.sub0 f).2.2)) ∨
    ((table_hash_insert t2.sub0 f).1 = 0 ∧
      table_hash2_insert t2 f = ((table_hash_insert t2.sub1 f).1,
        { t2 with sub1 := (table_hash_insert t2.sub1 f).2.1 },
        (table_hash_insert t2.sub1 f).2.2)) := by
  by_cases h0 : (table_hash_insert t2.sub0 f).1 ≠ 0
  · refine Or.inl ⟨h0, ?_⟩
    simp only [table_hash2_insert, if_pos h0]
  · push_neg at h0
    refine Or.inr ⟨h0, ?_⟩
    simp only [table_hash2_insert, h0, if_neg]
    simp

theorem hash2Inv_insert {t2 : SwTableHash2} (f : SwFlow)
    (hinv : Hash2Inv t2) : Hash2Inv (table_hash2_insert t2 f).2.1 := by
  obtain ⟨hi0, hi1, hcross⟩ := hinv
  rcases table_hash2_insert_eq t2 f with ⟨hr0, he2⟩ | ⟨hr0, he2⟩ <;> rw [he2]
  · -- subtable 0 accepted the entry; subtable 1 untouched
    have hacc : (table_hash_insert t2.sub0 f).1 = 1 := by
      rcases table_hash_insert_retval t2.sub0 f with h | h
      · exact absurd h hr0
      · exact h
    obtain ⟨hbk0, hcrc0, hmask0, hw0⟩ := insert_accept_state hacc
    have hfb0 : ∀ k2, find_bucket (table_hash_insert t2.sub0 f).2.1 k2 =
        find_bucket t2.sub0 k2 := fun k2 => find_bucket_congr hcrc0 hmask0 k2
    refine ⟨hashInv_insert f hi0, hi1, ?_⟩
    intro k hk
    have hk' : KeyIn t2.sub1 k := hk
    obtain ⟨g, hg, hgk⟩ := hcross k hk'
    show ∃ g2, (table_hash_insert t2.sub0 f).2.1.buckets.getD
        (find_bucket (table_hash_insert t2.sub0 f).2.1 k) none = some g2 ∧
        g2.key ≠ k
    rw [hbk0, hfb0]
    by_cases hij : find_bucket t2.sub0 k = find_bucket t2.sub0 f.key
    · -- the inserted key's bucket is exactly the bucket guarding k:
      -- the guard was a replace, and the new occupant still differs from k
      rcases table_hash_insert_eq t2.sub0 f with ⟨hw, he⟩ | ⟨hw, hb, he⟩ |
        ⟨old, hw, hb, hk2, he⟩ | ⟨old, hw, hb, hk2, he⟩
      · rw [he] at hacc
        simp at hacc
      · rw [SwTableHash.bucketAt] at hb
        rw [hij, hb] at hg
        exact Option.noConfusion hg
      · obtain ⟨hwf0, _, _, _⟩ := hi0
        have hilt : find_bucket t2.sub0 f.key < t2.sub0.buckets.length := by
          rw [hwf0]
          exact Nat.lt_succ_of_le (find_bucket_le_mask t2.sub0 f.key)
        rw [SwTableHash.bucketAt] at hb
        rw [hij, getD_set_self _ hilt]
        refine ⟨f, rfl, ?_⟩
        rw [hij, hb] at hg
        injection hg with hg
        rw [← hg, hk2] at hgk
        exact hgk
      · rw [he] at hacc
        simp at hacc
    · rw [getD_set_ne _ (fun hc => hij hc.symm)]
      exact ⟨g, hg, hgk⟩
  · -- subtable 0 rejected the entry; the insert went to subtable 1
    rcases table_hash_insert_eq t2.sub1 f with ⟨hw, he⟩ | ⟨hw, hb, he⟩ |
      ⟨old, hw, hb, hk2, he⟩ | ⟨old, hw, hb, hk2, he⟩
    · -- wildcarded key: subtable 1 rejected too, state unchanged
      rw [he]
      exact ⟨hi0, hi1, hcross⟩
    all_goals try (rw [he]; exact ⟨hi0, hi1, hcross⟩)
    -- remaining: subtable 1 accepted (new or replace)
    all_goals
      have hsub0 : ∃ old0, t2.sub0.buckets.getD
          (find_bucket t2.sub0 f.key) none = some old0 ∧
          old0.key ≠ f.key := by
        rcases table_hash_insert_eq t2.sub0 f with ⟨hw0, he0⟩ |
          ⟨hw0, hb0, he0⟩ | ⟨old0, hw0, hb0, hk0, he0⟩ |
          ⟨old0, hw0, hb0, hk0, he0⟩
        · exact absurd hw hw0
        · rw [he0] at hr0
          simp at hr0
        · rw [he0] at hr0
          simp at hr0
        · rw [SwTableHash.bucketAt] at hb0
          exact ⟨old0, hb0, hk0⟩
    all_goals
      refine ⟨hi0, hashInv_insert f hi1, ?_⟩
    all_goals
      intro k hk
    all_goals
      have hk' : KeyIn (table_hash_insert t2.sub1 f).2.1 k := hk
    all_goals
      obtain ⟨i, g, hg, hgk⟩ := hk'
    all_goals
      have hbk1 : (table_hash_insert t2.sub1 f).2.1.buckets =
          t2.sub1.buckets.set (find_bucket t2.sub1 f.key) (some f) := by
        rw [he]
    all_goals
      rw [hbk1] at hg
    all_goals
      show ∃ g2, t2.sub0.buckets.getD (find_bucket t2.sub0 k) none =
        some g2 ∧ g2.key ≠ k
    all_goals
      obtain ⟨hwf1, _, _, _⟩ := hi1
    all_goals
      have hilt1 : find_bucket t2.sub1 f.key < t2.sub1.buckets.length := by
        rw [hwf1]
        exact Nat.lt_succ_of_le (find_bucket_le_mask t2.sub1 f.key)
    all_goals
      by_cases hij : i = find_bucket t2.sub1 f.key
    all_goals try (
      rw [hij, getD_set_self _ hilt1] at hg;
      injection hg with hg;
      obtain ⟨old0, hb0, hneq0⟩ := hsub0;
      have hkey : f.key = k := by rw [hg]; exact hgk;
      refine ⟨old0, ?_, ?_⟩;
      · rw [← hkey]; exact hb0;
      · intro hc; exact hneq0 (hc.trans hkey.symm))
    all_goals
      rw [getD_set_ne _ (fun hc => hij hc.symm)] at hg
    all_goals
      exact hcross k ⟨i, g, hg, hgk⟩

theorem hash2Inv_created {crc0 : FlowKey → Nat} {n0 : Nat}
    {crc1 : FlowKey → Nat} {n1 : Nat} {t2 : SwTableHash2}
    (h00 : 0 < n0) (h0s : n0 < UINT_MOD) (h10 : 0 < n1) (h1s : n1 < UINT_MOD)
    (he : table_hash2_create crc0 n0 crc1 n1 = .built t2) : Hash2Inv t2 := by
  unfold table_hash2_create at he
  split at he
  · exact CreateResult2.noConfusion he
  · rename_i th0 he0
    split at he
    · exact CreateResult2.noConfusion he
    · rename_i th1 he1
      injection he with he
      subst he
      refine ⟨hashInv_created h00 h0s he0, hashInv_created h10 h1s he1, ?_⟩
      intro k hk
      obtain ⟨i, g, hg, _⟩ := hk
      rw [table_hash_create_built he1] at hg
      rw [getD_replicate_none] at hg
      exact Option.noConfusion hg

/-- Double-hash table states reachable from a successfully constructed pair
of subtables by a sequence of insert operations only. -/
inductive ReachableIns2 : SwTableHash2 → Prop where
  | created (crc0 : FlowKey → Nat) (n0 : Nat) (crc1 : FlowKey → Nat)
      (n1 : Nat) (t2 : SwTableHash2) :
      0 < n0 → n0 < UINT_MOD → 0 < n1 → n1 < UINT_MOD →
      table_hash2_create crc0 n0 crc1 n1 = .built t2 → ReachableIns2 t2
  | insert (t2 : SwTableHash2) (f : SwFlow) : ReachableIns2 t2 →
      ReachableIns2 (table_hash2_insert t2 f).2.1

theorem reachableIns2_hash2Inv {t2 : SwTableHash2} (h : ReachableIns2 t2) :
    Hash2Inv t2 := by
  induction h with
  | created crc0 n0 crc1 n1 t2 h00 h0s h10 h1s he =>
    exact hash2Inv_created h00 h0s h10 h1s he
  | insert t2 f _ ih => exact hash2Inv_insert f ih

/-- C2 (corrected): for every double-hash table state reachable from a fresh
pair of subtables by insert operations alone, a given key resides in at most
one of the two subtables.  (With deletes interleaved the invariant can be
violated — see the counterexample — so it does not hold over arbitrary
insert/delete/timeout sequences as claimed.) -/
theorem C2_at_most_one_subtable (t2 : SwTableHash2) (h : ReachableIns2 t2)
    (k : FlowKey) : ¬(KeyIn t2.sub0 k ∧ KeyIn t2.sub1 k) :=
  hash2Inv_atMostOne (reachableIns2_hash2Inv h) k

/-- Witness for C2 at a concrete insert-only reachable state. -/
theorem C2_witness :
    ¬(KeyIn (table_hash2_insert
        (table_hash2_insert t2start ⟨keyB, 10⟩).2.1 ⟨keyA, 11⟩).2.1.sub0
        keyA ∧
      KeyIn (table_hash2_insert
        (table_hash2_insert t2start ⟨keyB, 10⟩).2.1 ⟨keyA, 11⟩).2.1.sub1
        keyA) :=
  C2_at_most_one_subtable _
    (ReachableIns2.insert _ ⟨keyA, 11⟩
      (ReachableIns2.insert t2start ⟨keyB, 10⟩
        (ReachableIns2.created crcConst 4 crcFields 4 t2start (by decide)
          (by decide) (by decide) (by decide) rfl)))
    keyA

theorem next_flow_beyond (th : SwTableHash) {i : Nat}
    (h : ¬i ≤ th.bucket_mask) : next_flow th i = (i, none) := by
  rw [next_flow, if_neg h]

theorem next_flow_hit (th : SwTableHash) {i : Nat} {f : SwFlow}
    (h : i ≤ th.bucket_mask) (hb : th.bucketAt i = some f) :
    next_flow th i = (i, some f) := by
  rw [next_flow, if_pos h, hb]

theorem next_flow_skip (th : SwTableHash) {i : Nat}
    (h : i ≤ th.bucket_mask) (hb : th.bucketAt i = none) :
    next_flow th i = next_flow th (i + 1) := by
  rw [next_flow, if_pos h, hb]

theorem drop_filterMap_of_beyond {th : SwTableHash} {i : Nat}
    (hwf : th.buckets.length = th.bucket_mask + 1)
    (h : ¬i ≤ th.bucket_mask) :
    (th.buckets.drop i).filterMap id = [] := by
  rw [List.drop_eq_nil_of_le (by omega)]
  rfl

theorem drop_cons_of_le {th : SwTableHash} {i : Nat}
    (hwf : th.buckets.length = th.bucket_mask + 1)
    (h : i ≤ th.bucket_mask) :
    th.buckets.drop i = th.bucketAt i :: th.buckets.drop (i + 1) := by
  have hlt : i < th.buckets.length := by omega
  rw [List.drop_eq_getElem_cons hlt]
  congr 1
  rw [SwTableHash.bucketAt, List.getD_eq_getElem?_getD,
    List.getElem?_eq_getElem hlt]
  rfl

theorem next_flow_spec (th : SwTableHash)
    (hwf : th.buckets.length = th.bucket_mask + 1) (i : Nat) :
    (∀ j, next_flow th i = (j, none) →
      (th.buckets.drop i).filterMap id = []) ∧
    (∀ j f, next_flow th i = (j, some f) →
      i ≤ j ∧ j ≤ th.bucket_mask ∧ th.bucketAt j = some f ∧
      (th.buckets.drop i).filterMap id =
        f :: (th.buckets.drop (j + 1)).filterMap id) := by
  have H : ∀ n i, th.bucket_mask + 1 - i ≤ n →
      (∀ j, next_flow th i = (j, none) →
        (th.buckets.drop i).filterMap id = []) ∧
      (∀ j f, next_flow th i = (j, some f) →
        i ≤ j ∧ j ≤ th.bucket_mask ∧ th.bucketAt j = some f ∧
        (th.buckets.drop i).filterMap id =
          f :: (th.buckets.drop (j + 1)).filterMap id) := by
    intro n
    induction n with
    | zero =>
      intro i hi
      have hgt : ¬i ≤ th.bucket_mask := by omega
      rw [next_flow_beyond th hgt]
      constructor
      · intro j _
        exact drop_filterMap_of_beyond hwf hgt
      · intro j f hjf
        injection hjf with _ hf
        exact Option.noConfusion hf
    | succ m ih =>
      intro i hi
      by_cases hle : i ≤ th.bucket_mask
      · cases hb : th.bucketAt i with
        | some f0 =>
          rw [next_flow_hit th hle hb]
          constructor
          · intro j hjf
            injection hjf with _ hf
            exact Option.noConfusion hf
          · intro j f hjf
            injection hjf with hj hf
            injection hf with hf
            subst hj
            subst hf
            refine ⟨Nat.le_refl i, hle, hb, ?_⟩
            rw [drop_cons_of_le hwf hle, hb]
            simp
        | none =>
          rw [next_flow_skip th hle hb]
          have hdrop : (th.buckets.drop i).filterMap id =
              (th.buckets.drop (i + 1)).filterMap id := by
            rw [drop_cons_of_le hwf hle, hb]
            simp
          obtain ⟨ihn, ihs⟩ := ih (i + 1) (by omega)
          constructor
          · intro j hjf
            rw [hdrop]
            exact ihn j hjf
          · intro j f hjf
            obtain ⟨hij, hjm, hbj, hrest⟩ := ihs j f hjf
            exact ⟨by omega, hjm, hbj, by rw [hdrop]; exact hrest⟩
      · rw [next_flow_beyond th hle]
        constructor
        · intro j _
          exact drop_filterMap_of_beyond hwf hle
        · intro j f hjf
          injection hjf with _ hf
          exact Option.noConfusion hf
  exact H (th.bucket_mask + 1) i (by omega)

theorem table_hash_next_step (th : SwTableHash) (f : SwFlow) (j : Nat) :
    table_hash_next th ⟨some f, j⟩ =
      ⟨(next_flow th (j + 1)).2, (next_flow th (j + 1)).1⟩ := rfl

theorem collectFlows_scan (th : SwTableHash)
    (hwf : th.buckets.length = th.bucket_mask + 1) :
    ∀ fuel i, ((th.buckets.drop i).filterMap id).length ≤ fuel →
      collectFlows th ⟨(next_flow th i).2, (next_flow th i).1⟩ fuel =
        (th.buckets.drop i).filterMap id := by
  intro fuel
  induction fuel with
  | zero =>
    intro i hle
    have hnil : (th.buckets.drop i).filterMap id = [] :=
      List.length_eq_zero.mp (by omega)
    rw [hnil]
    rfl
  | succ m ih =>
    intro i hle
    rcases hnf : next_flow th i with ⟨j, of⟩
    cases of with
    | none =>
      rw [(next_flow_spec th hwf i).1 j hnf]
      rfl
    | some f =>
      obtain ⟨hij, hjm, hbj, hrest⟩ := (next_flow_spec th hwf i).2 j f hnf
      rw [hrest]
      show f :: collectFlows th (table_hash_next th ⟨some f, j⟩) m =
        f :: (th.buckets.drop (j + 1)).filterMap id
      rw [table_hash_next_step]
      rw [hrest] at hle
      rw [ih (j + 1) (by simpa using hle)]

/-- Single-table iterator creation in scan form. -/
theorem table_hash_iterator_eq (th : SwTableHash) :
    table_hash_iterator th = ⟨(next_flow th 0).2, (next_flow th 0).1⟩ := rfl

theorem collectFlows_all (th : SwTableHash)
    (hwf : th.buckets.length = th.bucket_mask + 1) :
    collectFlows th (table_hash_iterator th) th.buckets.length =
      th.buckets.filterMap id := by
  rw [table_hash_iterator_eq]
  have h0 := collectFlows_scan th hwf th.buckets.length 0
    (by simpa using List.length_filterMap_le id th.buckets)
  simpa using h0

theorem iterator_flow_none_of_empty (th : SwTableHash)
    (hwf : th.buckets.length = th.bucket_mask + 1)
    (hemp : countOccupied th.buckets = 0) :
    (table_hash_iterator th).flow = none := by
  rw [table_hash_iterator_eq]
  rcases hnf : next_flow th 0 with ⟨j, of⟩
  cases of with
  | none => rfl
  | some f =>
    obtain ⟨_, _, _, hrest⟩ := (next_flow_spec th hwf 0).2 j f hnf
    rw [countOccupied_eq_filterMap] at hemp
    rw [List.drop_zero] at hrest
    rw [hrest] at hemp
    simp at hemp

theorem hash2_next_phase0_some (t2 : SwTableHash2) {f f' : SwFlow}
    {j j' : Nat} (hnf : next_flow t2.sub0 (j + 1) = (j', some f')) :
    table_hash2_next t2 ⟨some f, 0, ⟨some f, j⟩⟩ =
      ⟨some f', 0, ⟨some f', j'⟩⟩ := by
  simp [table_hash2_next, table_hash_next, hnf]

theorem hash2_next_phase0_none (t2 : SwTableHash2) {f : SwFlow}
    {j j' : Nat} (hnf : next_flow t2.sub0 (j + 1) = (j', none)) :
    table_hash2_next t2 ⟨some f, 0, ⟨some f, j⟩⟩ =
      ⟨(next_flow t2.sub1 0).2, 1,
        ⟨(next_flow t2.sub1 0).2, (next_flow t2.sub1 0).1⟩⟩ := by
  simp [table_hash2_next, table_hash_next, hnf, table_hash_iterator]

theorem hash2_next_phase1_some (t2 : SwTableHash2) {f f' : SwFlow}
    {j j' : Nat} (hnf : next_flow t2.sub1 (j + 1) = (j', some f')) :
    table_hash2_next t2 ⟨some f, 1, ⟨some f, j⟩⟩ =
      ⟨some f', 1, ⟨some f', j'⟩⟩ := by
  simp [table_hash2_next, table_hash_next, hnf]

theorem hash2_next_phase1_none (t2 : SwTableHash2) {f : SwFlow}
    {j j' : Nat} (hnf : next_flow t2.sub1 (j + 1) = (j', none)) :
    table_hash2_next t2 ⟨some f, 1, ⟨some f, j⟩⟩ =
      ⟨none, 1, ⟨none, j'⟩⟩ := by
  simp [table_hash2_next, table_hash_next, hnf]

theorem collectFlows2_none (t2 : SwTableHash2) (c : SwtIterator2)
    (hc : c.flow = none) : ∀ fuel, collectFlows2 t2 c fuel = [] := by
  intro fuel
  cases fuel with
  | zero => rfl
  | succ m =>
    show (match c.flow with
      | none => []
      | some f => f :: collectFlows2 t2 (table_hash2_next t2 c) m) = []
    rw [hc]

theorem collectFlows2_phase1 (t2 : SwTableHash2)
    (hwf1 : t2.sub1.buckets.length = t2.sub1.bucket_mask + 1) :
    ∀ fuel i j f, next_flow t2.sub1 i = (j, some f) →
      ((t2.sub1.buckets.drop i).filterMap id).length ≤ fuel →
      collectFlows2 t2 ⟨some f, 1, ⟨some f, j⟩⟩ fuel =
        (t2.sub1.buckets.drop i).filterMap id := by
  intro fuel
  induction fuel with
  | zero =>
    intro i j f hnf hle
    obtain ⟨_, _, _, hrest⟩ := (next_flow_spec t2.sub1 hwf1 i).2 j f hnf
    rw [hrest] at hle
    simp at hle
  | succ m ih =>
    intro i j f hnf hle
    obtain ⟨hij, hjm, hbj, hrest⟩ := (next_flow_spec t2.sub1 hwf1 i).2 j f hnf
    rw [hrest]
    show f :: collectFlows2 t2
        (table_hash2_next t2 ⟨some f, 1, ⟨some f, j⟩⟩) m =
      f :: (t2.sub1.buckets.drop (j + 1)).filterMap id
    rcases hnf2 : next_flow t2.sub1 (j + 1) with ⟨j2, of2⟩
    cases of2 with
    | some f2 =>
      rw [hash2_next_phase1_some t2 hnf2]
      rw [hrest] at hle
      rw [ih (j + 1) j2 f2 hnf2 (by simpa using hle)]
    | none =>
      rw [hash2_next_phase1_none t2 hnf2]
      rw [collectFlows2_none t2 _ rfl m,
        (next_flow_spec t2.sub1 hwf1 (j + 1)).1 j2 hnf2]

theorem collectFlows2_phase0 (t2 : SwTableHash2)
    (hwf0 : t2.sub0.buckets.length = t2.sub0.bucket_mask + 1)
    (hwf1 : t2.sub1.buckets.length = t2.sub1.bucket_mask + 1) :
    ∀ fuel i j f, next_flow t2.sub0 i = (j, some f) →
      ((t2.sub0.buckets.drop i).filterMap id).length +
        (t2.sub1.buckets.filterMap id).length ≤ fuel →
      collectFlows2 t2 ⟨some f, 0, ⟨some f, j⟩⟩ fuel =
        (t2.sub0.buckets.drop i).filterMap id ++
          t2.sub1.buckets.filterMap id := by
  intro fuel
  induction fuel with
  | zero =>
    intro i j f hnf hle
    obtain ⟨_, _, _, hrest⟩ := (next_flow_spec t2.sub0 hwf0 i).2 j f hnf
    rw [hrest] at hle
    simp at hle
  | succ m ih =>
    intro i j f hnf hle
    obtain ⟨hij, hjm, hbj, hrest⟩ := (next_flow_spec t2.sub0 hwf0 i).2 j f hnf
    rw [hrest]
    show f :: collectFlows2 t2
        (table_hash2_next t2 ⟨some f, 0, ⟨some f, j⟩⟩) m =
      (f :: (t2.sub0.buckets.drop (j + 1)).filterMap id) ++
        t2.sub1.buckets.filterMap id
    rw [hrest] at hle
    simp only [List.length_cons] at hle
    rcases hnf2 : next_flow t2.sub0 (j + 1) with ⟨j2, of2⟩
    cases of2 with
    | some f2 =>
      rw [hash2_next_phase0_some t2 hnf2]
      rw [ih (j + 1) j2 f2 hnf2 (by omega)]
      rfl
    | none =>
      rw [hash2_next_phase0_none t2 hnf2]
      have hdrop0 : (t2.sub0.buckets.drop (j + 1)).filterMap id = [] :=
        (next_flow_spec t2.sub0 hwf0 (j + 1)).1 j2 hnf2
      rw [hdrop0]
      have hm1 : (t2.sub1.buckets.filterMap id).length ≤ m := by
        rw [hdrop0] at hle
        simp at hle
        omega
      rcases hnf3 : next_flow t2.sub1 0 with ⟨j3, of3⟩
      cases of3 with
      | some f3 =>
        show f :: collectFlows2 t2 ⟨some f3, 1, ⟨some f3, j3⟩⟩ m =
          [f] ++ t2.sub1.buckets.filterMap id
        have h3 := collectFlows2_phase1 t2 hwf1 m 0 j3 f3 hnf3
          (by rw [List.drop_zero]; exact hm1)
        rw [List.drop_zero] at h3
        rw [h3]
        rfl
      | none =>
        show f :: collectFlows2 t2 ⟨none, 1, ⟨none, j3⟩⟩ m =
          [f] ++ t2.sub1.buckets.filterMap id
        rw [collectFlows2_none t2 _ rfl m]
        have hs1 : (t2.sub1.buckets.drop 0).filterMap id = [] :=
          (next_flow_spec t2.sub1 hwf1 0).1 j3 hnf3
        rw [List.drop_zero] at hs1
        rw [hs1]
        rfl

theorem collectFlows2_all (t2 : SwTableHash2)
    (hwf0 : t2.sub0.buckets.length = t2.sub0.bucket_mask + 1)
    (hwf1 : t2.sub1.buckets.length = t2.sub1.bucket_mask + 1) :
    collectFlows2 t2 (table_hash2_iterator t2)
      (t2.sub0.buckets.length + t2.sub1.buckets.length) =
      t2.sub0.buckets.filterMap id ++ t2.sub1.buckets.filterMap id := by
  have hb0 := List.length_filterMap_le id t2.sub0.buckets
  have hb1 := List.length_filterMap_le id t2.sub1.buckets
  rcases hnf : next_flow t2.sub0 0 with ⟨j, of⟩
  cases of with
  | some f =>
    have hit : table_hash2_iterator t2 = ⟨some f, 0, ⟨some f, j⟩⟩ := by
      simp [table_hash2_iterator, table_hash_iterator, hnf]
    rw [hit]
    have h0 := collectFlows2_phase0 t2 hwf0 hwf1
      (t2.sub0.buckets.length + t2.sub1.buckets.length) 0 j f hnf
      (by rw [List.drop_zero]; omega)
    rw [List.drop_zero] at h0
    exact h0
  | none =>
    have hs0 : (t2.sub0.buckets.drop 0).filterMap id = [] :=
      (next_flow_spec t2.sub0 hwf0 0).1 j hnf
    rw [List.drop_zero] at hs0
    have hit : table_hash2_iterator t2 =
        ⟨(next_flow t2.sub1 0).2, 1,
          ⟨(next_flow t2.sub1 0).2, (next_flow t2.sub1 0).1⟩⟩ := by
      simp [table_hash2_iterator, table_hash_iterator, hnf]
    rw [hit, hs0]
    rcases hnf1 : next_flow t2.sub1 0 with ⟨j1, of1⟩
    cases of1 with
    | some f1 =>
      show collectFlows2 t2 ⟨some f1, 1, ⟨some f1, j1⟩⟩
          (t2.sub0.buckets.length + t2.sub1.buckets.length) =
        [] ++ t2.sub1.buckets.filterMap id
      have h1 := collectFlows2_phase1 t2 hwf1
        (t2.sub0.buckets.length + t2.sub1.buckets.length) 0 j1 f1 hnf1
        (by rw [List.drop_zero]; omega)
      rw [List.drop_zero] at h1
      rw [h1]
      rfl
    | none =>
      show collectFlows2 t2 ⟨none, 1, ⟨none, j1⟩⟩
          (t2.sub0.buckets.length + t2.sub1.buckets.length) =
        [] ++ t2.sub1.buckets.filterMap id
      rw [collectFlows2_none t2 _ rfl]
      have hs1 : (t2.sub1.buckets.drop 0).filterMap id = [] :=
        (next_flow_spec t2.sub1 hwf1 0).1 j1 hnf1
      rw [List.drop_zero] at hs1
      rw [hs1]
      rfl

/-- C7: a fresh cursor over a single-hash table yields exactly the occupied
entries, each once, in increasing bucket order (as the list of occupied
buckets in index order); an empty table yields an immediate end sentinel;
and a fresh cursor over a double-hash table yields subtable 0's entries in
bucket order followed by subtable 1's entries in bucket order.  (Cursor
fuel `N` — the bucket count — bounds the number of `advance` calls, which
suffices since the cursor is finite and forward-only.) -/
theorem C7_iteration_order (th : SwTableHash) (t2 : SwTableHash2)
    (hwf : th.buckets.length = th.bucket_mask + 1)
    (hwf0 : t2.sub0.buckets.length = t2.sub0.bucket_mask + 1)
    (hwf1 : t2.sub1.buckets.length = t2.sub1.bucket_mask + 1) :
    collectFlows th (table_hash_iterator th) th.buckets.length =
      th.buckets.filterMap id ∧
    (countOccupied th.buckets = 0 → (table_hash_iterator th).flow = none) ∧
    collectFlows2 t2 (table_hash2_iterator t2)
      (t2.sub0.buckets.length + t2.sub1.buckets.length) =
      t2.sub0.buckets.filterMap id ++ t2.sub1.buckets.filterMap id :=
  ⟨collectFlows_all th hwf,
    fun hemp => iterator_flow_none_of_empty th hwf hemp,
    collectFlows2_all t2 hwf0 hwf1⟩

/-- Witness for C7 at a concrete occupied single table and double table. -/
theorem C7_witness :
    tableC.buckets.length = tableC.bucket_mask + 1 ∧
    (⟨table4z, tableC⟩ : SwTableHash2).sub0.buckets.length =
      (⟨table4z, tableC⟩ : SwTableHash2).sub0.bucket_mask + 1 ∧
    (⟨table4z, tableC⟩ : SwTableHash2).sub1.buckets.length =
      (⟨table4z, tableC⟩ : SwTableHash2).sub1.bucket_mask + 1 ∧
    (collectFlows tableC (table_hash_iterator tableC)
        tableC.buckets.length = tableC.buckets.filterMap id ∧
      (countOccupied tableC.buckets = 0 →
        (table_hash_iterator tableC).flow = none) ∧
      collectFlows2 ⟨table4z, tableC⟩
        (table_hash2_iterator ⟨table4z, tableC⟩)
        ((⟨table4z, tableC⟩ : SwTableHash2).sub0.buckets.length +
          (⟨table4z, tableC⟩ : SwTableHash2).sub1.buckets.length) =
        (⟨table4z, tableC⟩ : SwTableHash2).sub0.buckets.filterMap id ++
          (⟨table4z, tableC⟩ : SwTableHash2).sub1.buckets.filterMap id) :=
  ⟨rfl, rfl, rfl,
    C7_iteration_order tableC ⟨table4z, tableC⟩ rfl rfl rfl⟩
